import Mathlib

/-!
Verification of the ApiStudio backend (src/server.js), an HTTP request
proxy-and-recorder.  The server logic is shallowly embedded below:

* JavaScript strings are modelled as `List Char` (`JStr`);
* JSON-representable JavaScript values are modelled by the inductive `Js`
  (numeric atoms are modelled as integers; float formatting is
  platform-defined and out of scope);
* `JSON.stringify(v, null, 2)` is modelled by `printVal` / `stringify2`;
* `JSON.parse` is modelled by the fuelled recursive-descent parser
  `parseVal` / `jsonParse`;
* the `POST /api/request` handler of server.js (lines 49-135) is modelled by
  `buildConfig` and `postRequestHandler`, parameterised over the outcome of
  the outbound axios call and over the clock readings it makes;
* the history endpoints (lines 138-212) are modelled by `getHistoryHandler`,
  `getHistoryByIdHandler` and `deleteHistoryByIdHandler` over a list of
  persisted records.
-/

namespace ApiStudio

/-- Model of a JavaScript string: a list of characters. -/
abbrev JStr := List Char

/-- Model of a JSON-serialisable JavaScript value (the possible shapes of
`response.data` and of a parsed request body).  Numbers are modelled as
integers: float printing is platform-defined and no claim depends on it. -/
inductive Js where
  | nul : Js
  | bool (b : Bool) : Js
  | num (n : Int) : Js
  | str (s : JStr) : Js
  | arr (xs : List Js) : Js
  | obj (fields : List (JStr × Js)) : Js

/-- JavaScript truthiness of a `Js` value (`undefined` is represented by
`Option.none` at use sites, never inside `Js`). -/
def jsTruthy : Js → Bool
  | Js.nul => false
  | Js.bool b => b
  | Js.num n => decide (n ≠ 0)
  | Js.str s => decide (s ≠ [])
  | Js.arr _ => true
  | Js.obj _ => true

/-- Model of the JavaScript test `typeof v === 'object'`: true exactly for
`null`, arrays and objects. -/
def isObjectType : Js → Bool
  | Js.nul => true
  | Js.arr _ => true
  | Js.obj _ => true
  | _ => false

/-- The indentation emitted by `JSON.stringify(v, null, 2)` at nesting depth
`d`: `2*d` spaces. -/
def indent (d : Nat) : List Char := List.replicate (2 * d) ' '

/-- How `JSON.stringify` escapes one character inside a string literal. -/
def escChar (c : Char) : List Char :=
  if c = '"' then ['\\', '"']
  else if c = '\\' then ['\\', '\\']
  else if c = '\x08' then ['\\', 'b']
  else if c = '\x0c' then ['\\', 'f']
  else if c = '\n' then ['\\', 'n']
  else if c = '\r' then ['\\', 'r']
  else if c = '\t' then ['\\', 't']
  else if c.toNat < 32 then
    ['\\', 'u', '0', '0', Nat.digitChar (c.toNat / 16), Nat.digitChar (c.toNat % 16)]
  else [c]

/-- Escape a whole string body (no surrounding quotes). -/
def escString : List Char → List Char
  | [] => []
  | c :: cs => escChar c ++ escString cs

/-- Decimal digits of a natural number, most significant first. -/
def natChars (n : Nat) : List Char :=
  if n = 0 then ['0'] else ((Nat.digits 10 n).map Nat.digitChar).reverse

/-- Decimal rendering of an integer, as `JSON.stringify` renders integral
numbers. -/
def intChars (n : Int) : List Char :=
  if n < 0 then '-' :: natChars n.natAbs else natChars n.natAbs

mutual
/-- Model of `JSON.stringify(v, null, 2)` rendered at nesting depth `d`:
exact ECMA-262 output for the two-space gap. -/
def printVal : Js → Nat → List Char
  | Js.nul, _ => ['n', 'u', 'l', 'l']
  | Js.bool true, _ => ['t', 'r', 'u', 'e']
  | Js.bool false, _ => ['f', 'a', 'l', 's', 'e']
  | Js.num n, _ => intChars n
  | Js.str s, _ => '"' :: escString s ++ ['"']
  | Js.arr [], _ => ['[', ']']
  | Js.arr (x :: xs), d =>
      '[' :: '\n' :: indent (d+1) ++ printElems x xs (d+1) ++ '\n' :: indent d ++ [']']
  | Js.obj [], _ => ['\x7b', '\x7d']
  | Js.obj ((k, v) :: fs), d =>
      '\x7b' :: '\n' :: indent (d+1) ++ printFields k v fs (d+1) ++ '\n' :: indent d ++ ['\x7d']
termination_by v _ => sizeOf v
decreasing_by all_goals (simp <;> omega)
/-- The comma-separated items of a non-empty array, each already indented by
the caller (the first item's indentation is emitted by `printVal`). -/
def printElems : Js → List Js → Nat → List Char
  | x, [], d => printVal x d
  | x, y :: ys, d => printVal x d ++ ',' :: '\n' :: indent d ++ printElems y ys d
termination_by x xs _ => 1 + sizeOf x + sizeOf xs
decreasing_by all_goals (simp <;> omega)
/-- The comma-separated members of a non-empty object. -/
def printFields : JStr → Js → List (JStr × Js) → Nat → List Char
  | k, v, [], d => '"' :: escString k ++ '"' :: ':' :: ' ' :: printVal v d
  | k, v, (k2, v2) :: fs, d =>
      ('"' :: escString k ++ '"' :: ':' :: ' ' :: printVal v d)
        ++ ',' :: '\n' :: indent d ++ printFields k2 v2 fs d
termination_by _ v fs _ => 1 + sizeOf v + sizeOf fs
decreasing_by all_goals (simp <;> omega)
end

/-- `JSON.stringify(v, null, 2)` at top level. -/
def stringify2 (v : Js) : JStr := printVal v 0

/-- The response-data normalisation of server.js line 92:
`typeof data === 'object' ? JSON.stringify(data, null, 2) : data`. -/
def normalizeData (v : Js) : Js :=
  if isObjectType v then Js.str (stringify2 v) else v

/-- JSON insignificant whitespace. -/
def isWsChar (c : Char) : Bool := c = ' ' || c = '\n' || c = '\t' || c = '\r'

/-- Skip insignificant whitespace. -/
def skipWs (cs : List Char) : List Char := cs.dropWhile isWsChar

/-- Hexadecimal digit test (for string escapes and ObjectId strings). -/
def isHexDigitC (c : Char) : Bool :=
  c.isDigit || ('a' ≤ c && c ≤ 'f') || ('A' ≤ c && c ≤ 'F')

/-- Numeric value of a hexadecimal digit character. -/
def hexVal (c : Char) : Nat :=
  if c.isDigit then c.toNat - 48
  else if 'a' ≤ c && c ≤ 'f' then c.toNat - 87
  else c.toNat - 55

/-- Meaning of a single-character JSON string escape `\e`. -/
def unescape (e : Char) : Option Char :=
  if e = '"' then some '"'
  else if e = '\\' then some '\\'
  else if e = '/' then some '/'
  else if e = 'b' then some '\x08'
  else if e = 'f' then some '\x0c'
  else if e = 'n' then some '\n'
  else if e = 'r' then some '\r'
  else if e = 't' then some '\t'
  else none

/-- Parse the remainder of a JSON string literal (after the opening quote),
returning the decoded characters and the text after the closing quote. -/
def parseStringRest : List Char → Option (JStr × List Char)
  | [] => none
  | c :: cs =>
    if c = '"' then some ([], cs)
    else if c = '\\' then
      match cs with
      | [] => none
      | e :: cs2 =>
        if e = 'u' then
          match cs2 with
          | h1 :: h2 :: h3 :: h4 :: cs3 =>
            if isHexDigitC h1 && isHexDigitC h2 && isHexDigitC h3 && isHexDigitC h4 then
              (parseStringRest cs3).map
                (fun p =>
                  (Char.ofNat (4096 * hexVal h1 + 256 * hexVal h2 + 16 * hexVal h3 + hexVal h4)
                    :: p.1, p.2))
            else none
          | _ => none
        else
          match unescape e with
          | some u => (parseStringRest cs2).map (fun p => (u :: p.1, p.2))
          | none => none
    else if c.toNat < 32 then none
    else (parseStringRest cs).map (fun p => (c :: p.1, p.2))

/-- Value of a most-significant-first list of decimal digit characters. -/
def digitsToNat (ds : List Char) : Nat :=
  ds.foldl (fun a c => 10 * a + (c.toNat - 48)) 0

/-- Parse a JSON number (restricted to the integral numbers the model
represents). -/
def parseNumber (cs : List Char) : Option (Js × List Char) :=
  if cs.head? = some '-' then
    let ds := cs.tail.takeWhile Char.isDigit
    if ds = [] then none
    else some (Js.num (-(digitsToNat ds : Int)), cs.tail.dropWhile Char.isDigit)
  else
    let ds := cs.takeWhile Char.isDigit
    if ds = [] then none
    else some (Js.num ((digitsToNat ds : Int)), cs.dropWhile Char.isDigit)

mutual
/-- Model of `JSON.parse`, fuelled recursive descent.  `parseVal f cs` parses
one JSON value at the head of `cs` (after whitespace) and returns it with the
unconsumed remainder. -/
def parseVal : Nat → List Char → Option (Js × List Char)
  | 0, _ => none
  | f+1, cs =>
    match skipWs cs with
    | [] => none
    | c :: r =>
      if c = 'n' then
        match r with
        | 'u' :: 'l' :: 'l' :: r2 => some (Js.nul, r2)
        | _ => none
      else if c = 't' then
        match r with
        | 'r' :: 'u' :: 'e' :: r2 => some (Js.bool true, r2)
        | _ => none
      else if c = 'f' then
        match r with
        | 'a' :: 'l' :: 's' :: 'e' :: r2 => some (Js.bool false, r2)
        | _ => none
      else if c = '"' then
        (parseStringRest r).map (fun p => (Js.str p.1, p.2))
      else if c = '[' then
        let r2 := skipWs r
        if r2.head? = some ']' then some (Js.arr [], r2.tail)
        else (parseElems f r2).map (fun p => (Js.arr p.1, p.2))
      else if c = '\x7b' then
        let r2 := skipWs r
        if r2.head? = some '\x7d' then some (Js.obj [], r2.tail)
        else (parseFields f r2).map (fun p => (Js.obj p.1, p.2))
      else parseNumber (c :: r)
/-- Parse the non-empty item list of a JSON array, up to and including the
closing bracket. -/
def parseElems : Nat → List Char → Option (List Js × List Char)
  | 0, _ => none
  | f+1, cs =>
    match parseVal f cs with
    | none => none
    | some (v, r1) =>
      match skipWs r1 with
      | ',' :: r2 => (parseElems f r2).map (fun p => (v :: p.1, p.2))
      | ']' :: r2 => some ([v], r2)
      | _ => none
/-- Parse the non-empty member list of a JSON object, up to and including the
closing brace. -/
def parseFields : Nat → List Char → Option (List (JStr × Js) × List Char)
  | 0, _ => none
  | f+1, cs =>
    match skipWs cs with
    | '"' :: r =>
      match parseStringRest r with
      | none => none
      | some (k, r1) =>
        match skipWs r1 with
        | ':' :: r2 =>
          match parseVal f r2 with
          | none => none
          | some (v, r3) =>
            match skipWs r3 with
            | ',' :: r4 => (parseFields f r4).map (fun p => ((k, v) :: p.1, p.2))
            | '\x7d' :: r4 => some ([(k, v)], r4)
            | _ => none
        | _ => none
    | _ => none
end

/-- Model of `JSON.parse` on a whole input: parse one value and require only
whitespace to remain.  The fuel `length + 1` dominates the nesting depth of
any parseable input, each nesting level consuming at least one character. -/
def jsonParse (s : JStr) : Option Js :=
  match parseVal (s.length + 1) s with
  | some (v, rest) => if skipWs rest = [] then some v else none
  | none => none

/-! ## The request-description model and axios config building
(server.js lines 49-81). -/

/-- ASCII model of `String.prototype.toLowerCase`. -/
def lowerStr (s : JStr) : JStr := s.map Char.toLower

/-- The caller-supplied request description destructured from `req.body` on
line 51.  `none` models a field that is absent (`undefined`). -/
structure ReqDesc where
  method : Option JStr
  url : Option JStr
  headers : Option (List (JStr × JStr))
  body : Option JStr
  bodyType : Option JStr

/-- The axios config assembled on lines 56-81. -/
structure AxiosConfig where
  method : JStr
  url : Option JStr
  headers : List (JStr × JStr)
  timeout : Nat
  data : Option Js

/-- Exact-case header lookup, the JS property read `headers['Content-Type']`. -/
def getHeader (hs : List (JStr × JStr)) (k : JStr) : Option JStr :=
  (hs.find? (fun p => p.1 == k)).map Prod.snd

/-- JS property assignment `headers[k] = v`: replace in place if the key is
present, else append. -/
def setHeader (hs : List (JStr × JStr)) (k v : JStr) : List (JStr × JStr) :=
  if hs.any (fun p => p.1 == k) then hs.map (fun p => if p.1 == k then (k, v) else p)
  else hs ++ [(k, v)]

/-- The JS expression `x || dflt` for a string-or-undefined `x`:
an absent or empty string is falsy. -/
def orDefault (o : Option JStr) (dflt : JStr) : JStr :=
  match o with
  | some v => if v = [] then dflt else v
  | none => dflt

/-- The `Content-Type` header key. -/
def ctKey : JStr := "Content-Type".toList

/-- The verbs of line 65: `['post', 'put', 'patch']`. -/
def methodsWithBody : List JStr := ["post".toList, "put".toList, "patch".toList]

/-- The TypeError message thrown by `method.toLowerCase()` when `method` is
absent (line 57). -/
def tlcErrMsg : JStr := "Cannot read properties of undefined (reading 'toLowerCase')".toList

/-- Model of lines 51-81: build the axios config from the description, or
fail with the thrown TypeError when `method` is absent.  The body-encoding
dispatch is lines 64-81: `raw` attempts a JSON parse of the body (parsed
value on success, raw string on failure, Content-Type defaulted only on
parse success and only when falsy); `form-data` and `urlencoded` pass the
body through and assign their Content-Type unconditionally; any other
`bodyType` value leaves `config.data` unset. -/
def buildConfig (d : ReqDesc) : Except JStr AxiosConfig :=
  match d.method with
  | none => Except.error tlcErrMsg
  | some m =>
    let cfg0 : AxiosConfig :=
      { method := lowerStr m, url := d.url, headers := d.headers.getD [],
        timeout := 30000, data := none }
    if methodsWithBody.contains (lowerStr m) && decide (d.body.getD [] ≠ []) then
      let b := d.body.getD []
      if d.bodyType == some ("raw".toList) then
        match jsonParse b with
        | some v =>
          Except.ok { cfg0 with
            data := some v,
            headers := setHeader cfg0.headers ctKey
              (orDefault (getHeader cfg0.headers ctKey) ("application/json".toList)) }
        | none => Except.ok { cfg0 with data := some (Js.str b) }
      else if d.bodyType == some ("form-data".toList) then
        Except.ok { cfg0 with
          data := some (Js.str b),
          headers := setHeader cfg0.headers ctKey ("multipart/form-data".toList) }
      else if d.bodyType == some ("urlencoded".toList) then
        Except.ok { cfg0 with
          data := some (Js.str b),
          headers := setHeader cfg0.headers ctKey ("application/x-www-form-urlencoded".toList) }
      else Except.ok cfg0
    else Except.ok cfg0

/-! ## The POST /api/request handler (server.js lines 49-135). -/

/-- The partial response an axios transport failure may carry
(`error.response`). -/
structure ErrResponse where
  status : Nat
  statusText : JStr
  headers : List (JStr × JStr)
  data : Js

/-- Outcome of the outbound `axios(config)` call (line 84), an external
collaborator: either a received HTTP response (every status code is a normal
completion because of `validateStatus: () => true`), or a thrown transport
failure with an optional partial response. -/
inductive AxiosOutcome where
  | ok (status : Nat) (statusText : JStr) (headers : List (JStr × JStr)) (data : Js)
  | fail (response : Option ErrResponse) (message : JStr)

/-- The unified response shape persisted and returned (`responseData` of
lines 88-94 and `errorResponse` of lines 117-127). -/
structure RespData where
  status : Nat
  statusText : JStr
  headers : List (JStr × JStr)
  data : Js
  time : Int

/-- The `errorResponse` object of lines 117-127.  `tA` and `tB` are the two
`Date.now()` readings of line 115, in evaluation order: `req.startTime` is
never assigned anywhere in server.js, so `req.startTime || Date.now()`
always falls back to the second reading `tB`, and the reported time is
`tA - tB`. -/
def errorRespData (resp : Option ErrResponse) (msg : JStr) (tA tB : Int) : RespData :=
  { status := match resp with | some p => p.status | none => 0
    statusText := match resp with
      | some p => if p.statusText = [] then msg else p.statusText
      | none => msg
    headers := match resp with | some p => p.headers | none => []
    data := match resp with
      | some p => if jsTruthy p.data then normalizeData p.data else Js.str msg
      | none => Js.str msg
    time := tA - tB }

/-- One persisted ExchangeRecord (the `requestHistorySchema` of lines
23-37); `createdAt` is assigned at persistence time, `id` by the store. -/
structure HistoryRecord where
  id : JStr
  method : JStr
  url : Option JStr
  headers : List (JStr × JStr)
  body : JStr
  bodyType : JStr
  response : RespData
  createdAt : Int

/-- The `new RequestHistory(...)` document of lines 97-104, with the schema
defaults of lines 26-28 for absent fields. -/
def mkRecord (newId : JStr) (now : Int) (d : ReqDesc) (rd : RespData) : HistoryRecord :=
  { id := newId, method := d.method.getD [], url := d.url,
    headers := d.headers.getD [], body := d.body.getD [],
    bodyType := d.bodyType.getD ("raw".toList), response := rd, createdAt := now }

/-- The JSON reply an API handler sends (HTTP status plus body fields; absent
fields are `none`). -/
structure Reply where
  httpStatus : Nat
  success : Bool
  response : Option RespData := none
  error : Option JStr := none
  historyId : Option JStr := none
  request : Option HistoryRecord := none
  history : Option (List HistoryRecord) := none
  message : Option JStr := none

/-- Observable result of one execution of the POST /api/request handler:
the reply sent, the store after the handler, and whether the outbound call
was reached. -/
structure ExecResult where
  reply : Reply
  store : List HistoryRecord
  calledAxios : Bool

/-- Model of the whole POST /api/request handler (lines 49-135),
parameterised over the axios outcome, the store contents, the id and
creation time the store would assign, the elapsed time `endTime - startTime`
of the success path (line 86), and the two catch-path clock readings.
On the success path the record is saved (line 106) and the reply carries
`success: true`; on any thrown error the catch of lines 114-134 replies
`success: false` with HTTP 200 and nothing is persisted. -/
def postRequestHandler (d : ReqDesc) (outcome : AxiosOutcome) (st : List HistoryRecord)
    (newId : JStr) (now : Int) (elapsed : Nat) (tA tB : Int) : ExecResult :=
  match buildConfig d with
  | Except.error msg =>
      { reply := { httpStatus := 200, success := false,
                   response := some (errorRespData none msg tA tB), error := some msg },
        store := st, calledAxios := false }
  | Except.ok _ =>
    match outcome with
    | AxiosOutcome.ok s stx hs dat =>
        let rd : RespData := { status := s, statusText := stx, headers := hs,
                               data := normalizeData dat, time := (elapsed : Int) }
        let hrec := mkRecord newId now d rd
        { reply := { httpStatus := 200, success := true, response := some rd,
                     historyId := some newId },
          store := st ++ [hrec], calledAxios := true }
    | AxiosOutcome.fail resp msg =>
        { reply := { httpStatus := 200, success := false,
                     response := some (errorRespData resp msg tA tB), error := some msg },
          store := st, calledAxios := true }

/-! ## The history endpoints (server.js lines 138-212). -/

/-- The ordering used by `.sort({ createdAt: -1 })`: newest first. -/
def recGE (a b : HistoryRecord) : Prop := b.createdAt ≤ a.createdAt

instance : DecidableRel recGE := fun a b => inferInstanceAs (Decidable (_ ≤ _))

instance : IsTotal HistoryRecord recGE := ⟨fun a b => le_total b.createdAt a.createdAt⟩

instance : IsTrans HistoryRecord recGE := ⟨fun _ _ _ h1 h2 => le_trans h2 h1⟩

/-- Model of `RequestHistory.find().sort({createdAt: -1}).limit(50)`
(lines 140-142): the store's records sorted newest-first, first 50. -/
def listRecent (st : List HistoryRecord) : List HistoryRecord :=
  (List.insertionSort recGE st).take 50

/-- The GET /api/history handler (lines 138-154) on a reachable store. -/
def getHistoryHandler (st : List HistoryRecord) : Reply :=
  { httpStatus := 200, success := true, history := some (listRecent st) }

/-- Modelled from the mongoose collaborator: a string casts to an ObjectId
exactly when it is 24 hex characters or has length 12 (12-byte form). -/
def isValidObjectId (s : JStr) : Bool :=
  (decide (s.length = 24) && s.all isHexDigitC) || decide (s.length = 12)

/-- The CastError message mongoose throws for an uncastable id. -/
def castErrMsg : JStr := "Cast to ObjectId failed".toList

/-- Model of `RequestHistory.findById(id)` (line 159): throws a CastError on
an uncastable id, otherwise finds the record by id. -/
def findByIdModel (st : List HistoryRecord) (id : JStr) :
    Except JStr (Option HistoryRecord) :=
  if isValidObjectId id then Except.ok (st.find? (fun r => r.id == id))
  else Except.error castErrMsg

/-- The GET /api/history/:id handler (lines 157-178): 404 when the record is
absent, 500 via the catch on a thrown CastError, 200 otherwise. -/
def getHistoryByIdHandler (st : List HistoryRecord) (id : JStr) : Reply :=
  match findByIdModel st id with
  | Except.error m => { httpStatus := 500, success := false, error := some m }
  | Except.ok none =>
      { httpStatus := 404, success := false, error := some ("Request not found".toList) }
  | Except.ok (some r) => { httpStatus := 200, success := true, request := some r }

/-- The DELETE /api/history/:id handler (lines 181-195):
`findByIdAndDelete` deletes the record if present (and is a no-op returning
null if absent), then the handler replies success; a thrown CastError is
caught and mapped to 500. -/
def deleteHistoryByIdHandler (st : List HistoryRecord) (id : JStr) :
    Reply × List HistoryRecord :=
  if isValidObjectId id then
    ({ httpStatus := 200, success := true,
       message := some ("Request deleted from history".toList) },
      st.eraseP (fun r => r.id == id))
  else
    ({ httpStatus := 500, success := false, error := some castErrMsg }, st)

/-! ## Helper lemmas -/

/-- When `method` is present, `buildConfig` never throws: every branch of the
body dispatch returns a config. -/
theorem buildConfig_ok_of_method (d : ReqDesc) (m : JStr) (hm : d.method = some m) :
    ∃ cfg, buildConfig d = Except.ok cfg := by
  unfold buildConfig
  rw [hm]
  dsimp only
  by_cases h1 : (methodsWithBody.contains (lowerStr m) && decide (d.body.getD [] ≠ [])) = true
  · rw [if_pos h1]
    by_cases h2 : (d.bodyType == some ("raw".toList)) = true
    · rw [if_pos h2]
      cases jsonParse (d.body.getD []) <;> exact ⟨_, rfl⟩
    · rw [if_neg h2]
      by_cases h3 : (d.bodyType == some ("form-data".toList)) = true
      · rw [if_pos h3]; exact ⟨_, rfl⟩
      · rw [if_neg h3]
        by_cases h4 : (d.bodyType == some ("urlencoded".toList)) = true
        · rw [if_pos h4]; exact ⟨_, rfl⟩
        · rw [if_neg h4]; exact ⟨_, rfl⟩
  · rw [if_neg h1]; exact ⟨_, rfl⟩

/-- Reading back the key just assigned over a mapped-in-place header list. -/
theorem getHeader_map_set (hs : List (JStr × JStr)) (k v : JStr)
    (h : hs.any (fun p => p.1 == k) = true) :
    getHeader (hs.map (fun p => if p.1 == k then (k, v) else p)) k = some v := by
  induction hs with
  | nil => simp at h
  | cons a t ih =>
    simp only [List.map_cons]
    by_cases ha : (a.1 == k) = true
    · rw [if_pos ha]
      unfold getHeader
      rw [List.find?_cons_of_pos _ (by simp)]
      rfl
    · have ha' : (a.1 == k) = false := by simpa using ha
      rw [if_neg (by simp [ha'])]
      have h' : t.any (fun p => p.1 == k) = true := by
        simpa [List.any_cons, ha'] using h
      unfold getHeader
      rw [List.find?_cons_of_neg _ (by simp [ha'])]
      have := ih h'
      unfold getHeader at this
      exact this

/-- Reading back the key just appended to a header list that lacked it. -/
theorem getHeader_append_set (hs : List (JStr × JStr)) (k v : JStr)
    (h : hs.any (fun p => p.1 == k) = false) :
    getHeader (hs ++ [(k, v)]) k = some v := by
  induction hs with
  | nil =>
    unfold getHeader
    rw [List.nil_append, List.find?_cons_of_pos _ (by simp)]
    rfl
  | cons a t ih =>
    simp only [List.any_cons, Bool.or_eq_false_iff] at h
    rw [List.cons_append]
    unfold getHeader
    rw [List.find?_cons_of_neg _ (by simp [h.1])]
    have := ih h.2
    unfold getHeader at this
    exact this

/-- JS property assignment then read of the same key yields the assigned
value. -/
theorem getHeader_setHeader (hs : List (JStr × JStr)) (k v : JStr) :
    getHeader (setHeader hs k v) k = some v := by
  unfold setHeader
  by_cases h : hs.any (fun p => p.1 == k) = true
  · rw [if_pos h]; exact getHeader_map_set hs k v h
  · have h' : hs.any (fun p => p.1 == k) = false := Bool.eq_false_iff.mpr h
    rw [if_neg (by rw [h']; simp)]
    exact getHeader_append_set hs k v h'

/-- Whether the axios call produced a response (vs a thrown failure). -/
def axSuccess : AxiosOutcome → Bool
  | AxiosOutcome.ok _ _ _ _ => true
  | AxiosOutcome.fail _ _ => false

/-! ## Claim C1 -/

/-- A well-formed GET description used as concrete input. -/
def c1d : ReqDesc :=
  { method := some ("get".toList), url := some ("http://example.test/".toList),
    headers := none, body := none, bodyType := none }

/-- Claim C1 (counterexample): an execution of POST /api/request that reaches
the outbound call and completes with a transport failure persists NO
ExchangeRecord — not exactly one as the claim states: the catch handler
(lines 114-134) replies without saving. -/
theorem c1_counterexample :
    (postRequestHandler c1d (AxiosOutcome.fail none ("connect ECONNREFUSED".toList))
        [] ("a".toList) 0 5 9 9).calledAxios = true
    ∧ (postRequestHandler c1d (AxiosOutcome.fail none ("connect ECONNREFUSED".toList))
        [] ("a".toList) 0 5 9 9).store = [] :=
  ⟨rfl, rfl⟩

/-- Claim C1 (amended): every execution that reaches the outbound call and
receives a response persists exactly one record (line 106); an execution
whose outbound call fails at the transport level persists none (the catch
handler never saves). -/
theorem c1_persistence_amended (d : ReqDesc) (m : JStr) (hm : d.method = some m)
    (st : List HistoryRecord) (newId : JStr) (now : Int) (elapsed : Nat) (tA tB : Int) :
    (∀ s stx hs dat,
        (postRequestHandler d (AxiosOutcome.ok s stx hs dat) st newId now elapsed tA tB).store.length
            = st.length + 1
        ∧ (postRequestHandler d (AxiosOutcome.ok s stx hs dat) st newId now elapsed tA tB).calledAxios
            = true)
    ∧ (∀ resp msg,
        (postRequestHandler d (AxiosOutcome.fail resp msg) st newId now elapsed tA tB).store = st
        ∧ (postRequestHandler d (AxiosOutcome.fail resp msg) st newId now elapsed tA tB).calledAxios
            = true) := by
  obtain ⟨cfg, hcfg⟩ := buildConfig_ok_of_method d m hm
  constructor
  · intro s stx hs dat
    unfold postRequestHandler
    rw [hcfg]
    exact ⟨by simp, rfl⟩
  · intro resp msg
    unfold postRequestHandler
    rw [hcfg]
    exact ⟨rfl, rfl⟩

/-- Witness for `c1_persistence_amended` at concrete inputs. -/
theorem c1_witness :
    c1d.method = some ("get".toList)
    ∧ (postRequestHandler c1d (AxiosOutcome.ok 200 ("OK".toList) [] Js.nul)
        [] ("a".toList) 0 5 9 9).store.length = 0 + 1
    ∧ (postRequestHandler c1d (AxiosOutcome.fail none ("getaddrinfo ENOTFOUND".toList))
        [] ("a".toList) 0 5 9 9).store = [] :=
  ⟨rfl,
   ((c1_persistence_amended c1d _ rfl [] ("a".toList) 0 5 9 9).1 200 ("OK".toList) [] Js.nul).1,
   ((c1_persistence_amended c1d _ rfl [] ("a".toList) 0 5 9 9).2 none
      ("getaddrinfo ENOTFOUND".toList)).1⟩

/-! ## Claim C3 -/

/-- A malformed description: `method` absent. -/
def c3d : ReqDesc :=
  { method := none, url := some ("http://example.test/".toList),
    headers := none, body := none, bodyType := none }

/-- Claim C3 (counterexample): a malformed description (missing method) is
answered with HTTP 200 and `success:false` via the generic catch handler,
not with a client-error 4xx status as the claim states (no outbound call is
made and nothing is persisted, but the status is 200). -/
theorem c3_counterexample :
    (postRequestHandler c3d (AxiosOutcome.fail none []) [] ("a".toList) 0 5 9 9).reply.httpStatus
        = 200
    ∧ (postRequestHandler c3d (AxiosOutcome.fail none []) [] ("a".toList) 0 5 9 9).reply.success
        = false
    ∧ (postRequestHandler c3d (AxiosOutcome.fail none []) [] ("a".toList) 0 5 9 9).calledAxios
        = false
    ∧ (postRequestHandler c3d (AxiosOutcome.fail none []) [] ("a".toList) 0 5 9 9).store = [] :=
  ⟨rfl, rfl, rfl, rfl⟩

/-- Claim C3 (amended): a description with missing method is rejected before
any outbound attempt and nothing is persisted, but it is surfaced as HTTP
200 with `success:false` (the thrown TypeError lands in the catch handler),
not as a 4xx; every completed outbound attempt is answered with HTTP 200
and a `success` boolean discriminating response-received from
transport-failure. -/
theorem c3_malformed_amended (d : ReqDesc) (outcome : AxiosOutcome)
    (st : List HistoryRecord) (newId : JStr) (now : Int) (elapsed : Nat) (tA tB : Int) :
    (d.method = none →
        (postRequestHandler d outcome st newId now elapsed tA tB).reply.httpStatus = 200
      ∧ (postRequestHandler d outcome st newId now elapsed tA tB).reply.success = false
      ∧ (postRequestHandler d outcome st newId now elapsed tA tB).calledAxios = false
      ∧ (postRequestHandler d outcome st newId now elapsed tA tB).store = st)
    ∧ (∀ m, d.method = some m →
        (postRequestHandler d outcome st newId now elapsed tA tB).reply.httpStatus = 200
      ∧ (postRequestHandler d outcome st newId now elapsed tA tB).reply.success
          = axSuccess outcome
      ∧ (postRequestHandler d outcome st newId now elapsed tA tB).calledAxios = true) := by
  constructor
  · intro h
    have hb : buildConfig d = Except.error tlcErrMsg := by unfold buildConfig; rw [h]
    unfold postRequestHandler
    rw [hb]
    exact ⟨rfl, rfl, rfl, rfl⟩
  · intro m hm
    obtain ⟨cfg, hcfg⟩ := buildConfig_ok_of_method d m hm
    unfold postRequestHandler
    rw [hcfg]
    cases outcome <;> exact ⟨rfl, rfl, rfl⟩

/-- Witness for `c3_malformed_amended` at concrete inputs. -/
theorem c3_witness :
    c3d.method = none
    ∧ (postRequestHandler c3d (AxiosOutcome.fail none []) [] ("a".toList) 0 5 9 9).reply.httpStatus
        = 200
    ∧ c1d.method = some ("get".toList)
    ∧ (postRequestHandler c1d (AxiosOutcome.ok 404 ("Not Found".toList) [] Js.nul)
        [] ("a".toList) 0 5 9 9).reply.success = axSuccess (AxiosOutcome.ok 404 ("Not Found".toList) [] Js.nul) :=
  ⟨rfl,
   ((c3_malformed_amended c3d (AxiosOutcome.fail none []) [] ("a".toList) 0 5 9 9).1 rfl).1,
   rfl,
   ((c3_malformed_amended c1d (AxiosOutcome.ok 404 ("Not Found".toList) [] Js.nul)
      [] ("a".toList) 0 5 9 9).2 _ rfl).2.1⟩

/-! ## Claim C5 -/

/-- Extract `config.data` from a `buildConfig` result (error sentinel is a
non-`none` value so that `none` can only come from a built config). -/
def dataOf (e : Except JStr AxiosConfig) : Option Js :=
  match e with
  | Except.ok c => c.data
  | Except.error _ => some Js.nul

/-- A POST description with a non-empty body and absent bodyType. -/
def c5d : ReqDesc :=
  { method := some ("POST".toList), url := some ("http://example.test/".toList),
    headers := none, body := some ("x".toList), bodyType := none }

/-- The same description with `bodyType = raw`. -/
def c5draw : ReqDesc :=
  { method := some ("POST".toList), url := some ("http://example.test/".toList),
    headers := none, body := some ("x".toList), bodyType := some ("raw".toList) }

/-- Claim C5 (counterexample): with an absent bodyType and a non-empty POST
body, the dispatch of lines 65-81 matches no branch and `config.data` is
never set — the body is silently dropped; raw treatment of the same
description would attach the body (as the unparseable string itself), so
the absent encoding is NOT treated as raw. -/
theorem c5_counterexample :
    dataOf (buildConfig c5d) = none
    ∧ dataOf (buildConfig c5draw) = some (Js.str ("x".toList)) :=
  ⟨rfl, rfl⟩

/-- Claim C5 (amended): when bodyType is absent or not one of the three
enumerated values, no payload is attached to the outbound request — the
body is silently dropped (config keeps `data := none` and the caller
headers), rather than being shaped by the raw rules. -/
theorem c5_unknown_encoding_amended (d : ReqDesc) (m : JStr) (cfg : AxiosConfig)
    (hm : d.method = some m)
    (hbt : d.bodyType = none
      ∨ ∃ s, d.bodyType = some s
          ∧ s ∉ ["raw".toList, "form-data".toList, "urlencoded".toList])
    (hcfg : buildConfig d = Except.ok cfg) :
    cfg.data = none ∧ cfg.headers = d.headers.getD []
    ∧ cfg.method = lowerStr m ∧ cfg.timeout = 30000 := by
  have hraw : (d.bodyType == some ("raw".toList)) = false := by
    rcases hbt with h | ⟨s, hs, hmem⟩
    · rw [h]; rfl
    · rw [hs]
      simp only [beq_eq_false_iff_ne, ne_eq, Option.some.injEq]
      intro he
      exact hmem (by rw [he]; simp)
  have hfd : (d.bodyType == some ("form-data".toList)) = false := by
    rcases hbt with h | ⟨s, hs, hmem⟩
    · rw [h]; rfl
    · rw [hs]
      simp only [beq_eq_false_iff_ne, ne_eq, Option.some.injEq]
      intro he
      exact hmem (by rw [he]; simp)
  have hue : (d.bodyType == some ("urlencoded".toList)) = false := by
    rcases hbt with h | ⟨s, hs, hmem⟩
    · rw [h]; rfl
    · rw [hs]
      simp only [beq_eq_false_iff_ne, ne_eq, Option.some.injEq]
      intro he
      exact hmem (by rw [he]; simp)
  unfold buildConfig at hcfg
  rw [hm] at hcfg
  dsimp only at hcfg
  rw [hraw, hfd, hue] at hcfg
  simp only [Bool.false_eq_true, if_false, ite_self] at hcfg
  injection hcfg with h
  rw [← h]
  exact ⟨rfl, rfl, rfl, rfl⟩

/-- Witness for `c5_unknown_encoding_amended` at a concrete input with
`bodyType = "xml"`. -/
theorem c5_witness :
    ({ method := some ("POST".toList), url := some ("http://example.test/".toList),
       headers := none, body := some ("x".toList),
       bodyType := some ("xml".toList) } : ReqDesc).method = some ("POST".toList)
    ∧ ({ method := ("post".toList), url := some ("http://example.test/".toList),
         headers := [], timeout := 30000, data := none } : AxiosConfig).data = none := by
  refine ⟨rfl, ?_⟩
  exact (c5_unknown_encoding_amended
    { method := some ("POST".toList), url := some ("http://example.test/".toList),
      headers := none, body := some ("x".toList), bodyType := some ("xml".toList) }
    ("POST".toList)
    { method := ("post".toList), url := some ("http://example.test/".toList),
      headers := [], timeout := 30000, data := none }
    rfl
    (Or.inr ⟨("xml".toList), rfl, by decide⟩)
    rfl).1

/-! ## Claim C9 -/

/-- Claim C9: for a well-formed id that identifies no persisted record,
DELETE /api/history/:id replies success (idempotent, store unchanged),
while GET /api/history/:id replies 404 with `success:false`. -/
theorem c9_absent_id (st : List HistoryRecord) (id : JStr)
    (hvalid : isValidObjectId id = true)
    (habsent : st.find? (fun r => r.id == id) = none) :
    (deleteHistoryByIdHandler st id).1.httpStatus = 200
    ∧ (deleteHistoryByIdHandler st id).1.success = true
    ∧ (deleteHistoryByIdHandler st id).2 = st
    ∧ (getHistoryByIdHandler st id).httpStatus = 404
    ∧ (getHistoryByIdHandler st id).success = false := by
  have herase : st.eraseP (fun r => r.id == id) = st :=
    List.eraseP_of_forall_not (List.find?_eq_none.mp habsent)
  refine ⟨?_, ?_, ?_, ?_, ?_⟩
  · simp [deleteHistoryByIdHandler, hvalid]
  · simp [deleteHistoryByIdHandler, hvalid]
  · simp [deleteHistoryByIdHandler, hvalid, herase]
  · simp [getHistoryByIdHandler, findByIdModel, hvalid, habsent]
  · simp [getHistoryByIdHandler, findByIdModel, hvalid, habsent]

/-- Witness for `c9_absent_id`: a syntactically valid 24-hex id over the
empty store. -/
theorem c9_witness :
    isValidObjectId (List.replicate 24 'a') = true
    ∧ ([] : List HistoryRecord).find? (fun r => r.id == List.replicate 24 'a') = none
    ∧ (getHistoryByIdHandler [] (List.replicate 24 'a')).httpStatus = 404 :=
  ⟨by decide, rfl, (c9_absent_id [] (List.replicate 24 'a') (by decide) rfl).2.2.2.1⟩

/-! ## Claim C10 -/

/-- Claim C10: an id the store's id type cannot be cast from makes both
GET /api/history/:id and DELETE /api/history/:id reply HTTP 500 with
`success:false` (the store lookup throws into the generic catch), leaving
the store unchanged — neither a 404 nor an idempotent success. -/
theorem c10_invalid_id (st : List HistoryRecord) (id : JStr)
    (hinv : isValidObjectId id = false) :
    (getHistoryByIdHandler st id).httpStatus = 500
    ∧ (getHistoryByIdHandler st id).success = false
    ∧ (deleteHistoryByIdHandler st id).1.httpStatus = 500
    ∧ (deleteHistoryByIdHandler st id).1.success = false
    ∧ (deleteHistoryByIdHandler st id).2 = st := by
  refine ⟨?_, ?_, ?_, ?_, ?_⟩
  · simp [getHistoryByIdHandler, findByIdModel, hinv]
  · simp [getHistoryByIdHandler, findByIdModel, hinv]
  · simp [deleteHistoryByIdHandler, hinv]
  · simp [deleteHistoryByIdHandler, hinv]
  · simp [deleteHistoryByIdHandler, hinv]

/-- Witness for `c10_invalid_id`: the id `"zz"` is not castable. -/
theorem c10_witness :
    isValidObjectId ("zz".toList) = false
    ∧ (getHistoryByIdHandler [] ("zz".toList)).httpStatus = 500 :=
  ⟨by decide, (c10_invalid_id [] ("zz".toList) (by decide)).1⟩

/-! ## Claim C6 -/

/-- Claim C6 (code bug, time field): on a transport failure with no partial
response the returned outcome has status 0, statusText and data equal to
the failure message, empty headers — all as claimed — but its `time` is
`tA - tB`, the difference of the two `Date.now()` readings of line 115
(`req.startTime` is never assigned, so the fallback fires), which is ≤ 0
and in particular < 30000 even for a 30-second timeout, contradicting the
claimed elapsed-time measurement. -/
theorem c6_error_outcome_time_bug (d : ReqDesc) (m : JStr) (hm : d.method = some m)
    (msg : JStr) (hmsg : msg ≠ []) (st : List HistoryRecord) (newId : JStr)
    (now : Int) (elapsed : Nat) (tA tB : Int) (hclock : tA ≤ tB) :
    (postRequestHandler d (AxiosOutcome.fail none msg) st newId now elapsed tA tB).reply.response
        = some (errorRespData none msg tA tB)
    ∧ (errorRespData none msg tA tB).status = 0
    ∧ (errorRespData none msg tA tB).statusText = msg
    ∧ (errorRespData none msg tA tB).statusText ≠ []
    ∧ (errorRespData none msg tA tB).headers = []
    ∧ (errorRespData none msg tA tB).data = Js.str msg
    ∧ (errorRespData none msg tA tB).time = tA - tB
    ∧ (errorRespData none msg tA tB).time ≤ 0
    ∧ (errorRespData none msg tA tB).time < 30000 := by
  obtain ⟨cfg, hcfg⟩ := buildConfig_ok_of_method d m hm
  refine ⟨?_, rfl, rfl, hmsg, rfl, rfl, rfl, ?_, ?_⟩
  · unfold postRequestHandler
    rw [hcfg]
  · show tA - tB ≤ 0
    omega
  · show tA - tB < 30000
    omega

/-- Witness for `c6_error_outcome_time_bug`: a 30-second timeout failure
whose catch-time clock readings are both 30050ms after the epoch of the
request start; the reported time is 0, not ≥ 30000. -/
theorem c6_witness :
    c1d.method = some ("get".toList)
    ∧ ("timeout of 30000ms exceeded".toList : JStr) ≠ []
    ∧ (30050 : Int) ≤ 30050
    ∧ (errorRespData none ("timeout of 30000ms exceeded".toList) 30050 30050).time < 30000 :=
  ⟨rfl, by decide, by decide,
   (c6_error_outcome_time_bug c1d _ rfl ("timeout of 30000ms exceeded".toList) (by decide)
      [] ("a".toList) 0 31000 30050 30050 (by decide)).2.2.2.2.2.2.2.2⟩

/-! ## Claim C2 -/

/-- Extract the outbound Content-Type from a `buildConfig` result. -/
def hdrOf (e : Except JStr AxiosConfig) : Option JStr :=
  match e with
  | Except.ok c => getHeader c.headers ctKey
  | Except.error _ => none

/-- A POST description whose caller headers already carry
`Content-Type: text/plain`, with `bodyType = form-data`. -/
def c2d : ReqDesc :=
  { method := some ("post".toList), url := some ("http://example.test/".toList),
    headers := some [(ctKey, "text/plain".toList)], body := some ("x".toList),
    bodyType := some ("form-data".toList) }

/-- Claim C2 (counterexample): for `bodyType = form-data` the caller-supplied
`Content-Type: text/plain` IS overwritten with `multipart/form-data`
(line 76 assigns unconditionally), refuting the claim that a caller-supplied
Content-Type is never overwritten for any of the three encodings. -/
theorem c2_counterexample :
    hdrOf (buildConfig c2d) = some ("multipart/form-data".toList)
    ∧ hdrOf (buildConfig c2d) ≠ some ("text/plain".toList) :=
  ⟨rfl, by decide⟩

/-- Claim C2 (amended): for a POST/PUT/PATCH request with a non-empty body,
the `raw` encoding with a JSON-parseable body applies `application/json`
only when the caller's Content-Type is absent or empty (exact-case key
match, JS truthiness); `raw` with an unparseable body leaves the headers
untouched; but `form-data` and `urlencoded` assign their encoding-derived
Content-Type unconditionally, overwriting any caller-supplied value. -/
theorem c2_content_type_amended (d : ReqDesc) (m b : JStr) (cfg : AxiosConfig)
    (hm : d.method = some m) (hverb : methodsWithBody.contains (lowerStr m) = true)
    (hb : d.body = some b) (hbne : b ≠ [])
    (hcfg : buildConfig d = Except.ok cfg) :
    (d.bodyType = some ("form-data".toList) →
        getHeader cfg.headers ctKey = some ("multipart/form-data".toList))
    ∧ (d.bodyType = some ("urlencoded".toList) →
        getHeader cfg.headers ctKey = some ("application/x-www-form-urlencoded".toList))
    ∧ (d.bodyType = some ("raw".toList) → ∀ v, jsonParse b = some v →
        getHeader cfg.headers ctKey
          = some (orDefault (getHeader (d.headers.getD []) ctKey) ("application/json".toList)))
    ∧ (d.bodyType = some ("raw".toList) → jsonParse b = none →
        cfg.headers = d.headers.getD []) := by
  unfold buildConfig at hcfg
  rw [hm] at hcfg
  dsimp only at hcfg
  rw [hb] at hcfg
  simp only [Option.getD_some] at hcfg
  rw [hverb, decide_eq_true hbne] at hcfg
  simp only [Bool.and_self] at hcfg
  rw [if_pos trivial] at hcfg
  refine ⟨?_, ?_, ?_, ?_⟩
  · intro hbt
    rw [hbt] at hcfg
    rw [if_neg (by decide), if_pos (by decide)] at hcfg
    injection hcfg with h
    rw [← h]
    exact getHeader_setHeader _ _ _
  · intro hbt
    rw [hbt] at hcfg
    rw [if_neg (by decide), if_neg (by decide), if_pos (by decide)] at hcfg
    injection hcfg with h
    rw [← h]
    exact getHeader_setHeader _ _ _
  · intro hbt v hv
    rw [hbt] at hcfg
    rw [if_pos (by decide)] at hcfg
    rw [hv] at hcfg
    injection hcfg with h
    rw [← h]
    exact getHeader_setHeader _ _ _
  · intro hbt hv
    rw [hbt] at hcfg
    rw [if_pos (by decide)] at hcfg
    rw [hv] at hcfg
    injection hcfg with h
    rw [← h]

/-- Witness for `c2_content_type_amended`: the form-data overwrite observed
on the concrete description `c2d`. -/
theorem c2_witness :
    c2d.method = some ("post".toList)
    ∧ methodsWithBody.contains (lowerStr ("post".toList)) = true
    ∧ c2d.body = some ("x".toList)
    ∧ ("x".toList : JStr) ≠ []
    ∧ getHeader
        ({ method := ("post".toList), url := some ("http://example.test/".toList),
           headers := [(ctKey, "multipart/form-data".toList)], timeout := 30000,
           data := some (Js.str ("x".toList)) } : AxiosConfig).headers ctKey
        = some ("multipart/form-data".toList) :=
  ⟨rfl, by decide, rfl, by decide,
   (c2_content_type_amended c2d ("post".toList) ("x".toList)
      { method := ("post".toList), url := some ("http://example.test/".toList),
        headers := [(ctKey, "multipart/form-data".toList)], timeout := 30000,
        data := some (Js.str ("x".toList)) }
      rfl (by decide) rfl (by decide) rfl).1 rfl⟩

/-! ## Claim C4 -/

/-- Claim C4: for POST/PUT/PATCH with non-empty body and `bodyType = raw`,
the outbound payload is the JSON-parsed value when the body parses, and the
original body string unchanged when it does not (lines 66-72). -/
theorem c4_raw_payload (d : ReqDesc) (m b : JStr) (cfg : AxiosConfig)
    (hm : d.method = some m) (hverb : methodsWithBody.contains (lowerStr m) = true)
    (hb : d.body = some b) (hbne : b ≠ []) (hraw : d.bodyType = some ("raw".toList))
    (hcfg : buildConfig d = Except.ok cfg) :
    cfg.data = some (match jsonParse b with | some v => v | none => Js.str b) := by
  unfold buildConfig at hcfg
  rw [hm] at hcfg
  dsimp only at hcfg
  rw [hb] at hcfg
  simp only [Option.getD_some] at hcfg
  rw [hverb, decide_eq_true hbne] at hcfg
  simp only [Bool.and_self] at hcfg
  rw [if_pos trivial] at hcfg
  rw [hraw] at hcfg
  rw [if_pos (by decide)] at hcfg
  cases hj : jsonParse b with
  | some v =>
    rw [hj] at hcfg
    injection hcfg with h
    rw [← h]
  | none =>
    rw [hj] at hcfg
    injection hcfg with h
    rw [← h]

/-- A raw-encoded POST whose body is not valid JSON. -/
def c4dbad : ReqDesc :=
  { method := some ("POST".toList), url := some ("http://example.test/".toList),
    headers := none, body := some ("x".toList), bodyType := some ("raw".toList) }

/-- A raw-encoded POST whose body is the valid JSON text `[]`. -/
def c4dgood : ReqDesc :=
  { method := some ("POST".toList), url := some ("http://example.test/".toList),
    headers := none, body := some ("[]".toList), bodyType := some ("raw".toList) }

/-- Witness for `c4_raw_payload` on both sides of the parse dichotomy:
unparseable body `x` passes through as the string, parseable body `[]`
becomes the parsed (empty array) structure. -/
theorem c4_witness :
    methodsWithBody.contains (lowerStr ("POST".toList)) = true
    ∧ ("x".toList : JStr) ≠ []
    ∧ ({ method := ("post".toList), url := some ("http://example.test/".toList),
         headers := [], timeout := 30000,
         data := some (Js.str ("x".toList)) } : AxiosConfig).data
        = some (Js.str ("x".toList))
    ∧ ({ method := ("post".toList), url := some ("http://example.test/".toList),
         headers := [(ctKey, "application/json".toList)], timeout := 30000,
         data := some (Js.arr []) } : AxiosConfig).data
        = some (Js.arr []) :=
  ⟨by decide, by decide,
   c4_raw_payload c4dbad ("POST".toList) ("x".toList) _ rfl (by decide) rfl (by decide) rfl rfl,
   c4_raw_payload c4dgood ("POST".toList) ("[]".toList) _ rfl (by decide) rfl (by decide) rfl rfl⟩

/-! ## Claim C8 -/

/-- Claim C8: with all creation timestamps distinct, GET /api/history
returns HTTP 200 with exactly the `min(N, 50)` most recently created
records, in strictly newest-first order: the listing has that length, draws
only from the store, is strictly descending in `createdAt`, and every
record left out is strictly older than every record returned. -/
theorem c8_history_listing (st : List HistoryRecord)
    (hnd : (st.map HistoryRecord.createdAt).Nodup) :
    (getHistoryHandler st).httpStatus = 200
    ∧ (getHistoryHandler st).history = some (listRecent st)
    ∧ (listRecent st).length = min st.length 50
    ∧ (∀ r, r ∈ listRecent st → r ∈ st)
    ∧ (listRecent st).Pairwise (fun a b => b.createdAt < a.createdAt)
    ∧ (∀ r ∈ st, r ∉ listRecent st → ∀ s ∈ listRecent st, r.createdAt < s.createdAt) := by
  have hperm : (List.insertionSort recGE st).Perm st := List.perm_insertionSort recGE st
  have hsort : (List.insertionSort recGE st).Sorted recGE := List.sorted_insertionSort recGE st
  have hLsub : ∀ r, r ∈ listRecent st → r ∈ st := by
    intro r hr
    exact hperm.mem_iff.mp (List.take_subset _ _ hr)
  have hndS : ((List.insertionSort recGE st).map HistoryRecord.createdAt).Nodup := by
    have hp : ((List.insertionSort recGE st).map HistoryRecord.createdAt).Perm
        (st.map HistoryRecord.createdAt) := hperm.map _
    exact hp.nodup_iff.mpr hnd
  have hpairL : (listRecent st).Pairwise recGE :=
    List.Pairwise.sublist (List.take_sublist 50 _) hsort
  have hndL : ((listRecent st).map HistoryRecord.createdAt).Nodup := by
    unfold listRecent
    rw [List.map_take]
    exact List.Nodup.sublist (List.take_sublist 50 _) hndS
  have hneL : (listRecent st).Pairwise (fun a b => a.createdAt ≠ b.createdAt) :=
    List.pairwise_map.mp hndL
  have hstrict : (listRecent st).Pairwise (fun a b => b.createdAt < a.createdAt) := by
    exact (hpairL.and hneL).imp (fun h => lt_of_le_of_ne h.1 (fun he => h.2 he.symm))
  have hlen : (listRecent st).length = min st.length 50 := by
    unfold listRecent
    rw [List.length_take, hperm.length_eq]
    omega
  have hdom : ∀ r ∈ st, r ∉ listRecent st → ∀ s ∈ listRecent st,
      r.createdAt < s.createdAt := by
    intro r hr hrL s hsL
    have hrS : r ∈ List.insertionSort recGE st := hperm.mem_iff.mpr hr
    have hsplit := List.take_append_drop 50 (List.insertionSort recGE st)
    have hpairSplit : (List.take 50 (List.insertionSort recGE st)
        ++ List.drop 50 (List.insertionSort recGE st)).Pairwise recGE := by
      rw [hsplit]; exact hsort
    have hcross := (List.pairwise_append.mp hpairSplit).2.2
    have hrdrop : r ∈ List.drop 50 (List.insertionSort recGE st) := by
      have hm : r ∈ List.take 50 (List.insertionSort recGE st)
          ++ List.drop 50 (List.insertionSort recGE st) := by
        rw [hsplit]; exact hrS
      rcases List.mem_append.mp hm with h | h
      · exact absurd h hrL
      · exact h
    have hle : r.createdAt ≤ s.createdAt := hcross s hsL r hrdrop
    have hne : r.createdAt ≠ s.createdAt := by
      intro he
      have heq : r = s := List.inj_on_of_nodup_map hnd hr (hLsub s hsL) he
      exact hrL (heq ▸ hsL)
    exact lt_of_le_of_ne hle hne
  exact ⟨rfl, rfl, hlen, hLsub, hstrict, hdom⟩

/-- A minimal persisted record with the given creation time. -/
def c8r (i : Int) : HistoryRecord :=
  { id := "a".toList, method := "get".toList, url := none, headers := [],
    body := [], bodyType := "raw".toList,
    response := { status := 200, statusText := [], headers := [], data := Js.nul, time := 0 },
    createdAt := i }

/-- Witness for `c8_history_listing` on a concrete two-record store with
distinct timestamps. -/
theorem c8_witness :
    (([c8r 1, c8r 2].map HistoryRecord.createdAt)).Nodup
    ∧ (getHistoryHandler [c8r 1, c8r 2]).httpStatus = 200
    ∧ (listRecent [c8r 1, c8r 2]).length = min 2 50 :=
  ⟨by decide, (c8_history_listing [c8r 1, c8r 2] (by decide)).1,
   (c8_history_listing [c8r 1, c8r 2] (by decide)).2.2.1⟩

/-! ## Claim C7: the stringify/parse round trip.

The development below proves that parsing the text produced by
`JSON.stringify(v, null, 2)` recovers `v` exactly.  It proceeds through a
custom node-count measure (to bound the parser fuel), whitespace-skipping
lemmas, the string-escape round trip, the decimal-number round trip, and a
fuel induction relating `printVal`/`printElems`/`printFields` to
`parseVal`/`parseElems`/`parseFields`. -/

mutual
/-- Node count of a value (atoms count 1), a bound on parser fuel. -/
def sizeJ : Js → Nat
  | Js.arr xs => sizeL xs + 1
  | Js.obj fs => sizeF fs + 1
  | _ => 1
termination_by v => sizeOf v
decreasing_by all_goals (simp <;> omega)
/-- Node count of an array item list. -/
def sizeL : List Js → Nat
  | [] => 1
  | x :: xs => sizeJ x + sizeL xs + 1
termination_by xs => sizeOf xs
decreasing_by all_goals (simp <;> omega)
/-- Node count of an object member list. -/
def sizeF : List (JStr × Js) → Nat
  | [] => 1
  | (_, v) :: fs => sizeJ v + sizeF fs + 1
termination_by fs => sizeOf fs
decreasing_by all_goals (simp <;> omega)
end

theorem sizeJ_pos (v : Js) : 1 ≤ sizeJ v := by
  cases v <;> simp [sizeJ]

theorem sizeL_pos (xs : List Js) : 1 ≤ sizeL xs := by
  cases xs <;> simp [sizeL] <;> omega

theorem sizeF_pos (fs : List (JStr × Js)) : 1 ≤ sizeF fs := by
  cases fs with
  | nil => simp [sizeF]
  | cons p t => cases p; simp [sizeF]

/-! ### Whitespace lemmas -/

theorem skipWs_cons_of_neg (c : Char) (cs : List Char) (h : isWsChar c = false) :
    skipWs (c :: cs) = c :: cs := by
  simp [skipWs, List.dropWhile_cons, h]

theorem skipWs_append_ws (ws cs : List Char) (h : ∀ c ∈ ws, isWsChar c = true) :
    skipWs (ws ++ cs) = skipWs cs := by
  induction ws with
  | nil => rfl
  | cons a t ih =>
    have ha := h a (List.mem_cons_self a t)
    have iht := ih (fun c hc => h c (List.mem_cons_of_mem a hc))
    unfold skipWs at iht ⊢
    rw [List.cons_append, List.dropWhile_cons, ha]
    simpa using iht

theorem indent_ws (d : Nat) : ∀ c ∈ indent d, isWsChar c = true := by
  intro c hc
  unfold indent at hc
  rw [List.eq_of_mem_replicate hc]
  rfl

theorem parseVal_ws (f : Nat) (ws cs : List Char) (h : ∀ c ∈ ws, isWsChar c = true) :
    parseVal f (ws ++ cs) = parseVal f cs := by
  cases f with
  | zero => rfl
  | succ f =>
    simp only [parseVal]
    rw [skipWs_append_ws ws cs h]

/-! ### String-escape round trip -/

theorem hexVal_digitChar : ∀ x, x < 16 → hexVal (Nat.digitChar x) = x := by decide

theorem isHex_digitChar : ∀ x, x < 16 → isHexDigitC (Nat.digitChar x) = true := by decide

theorem parseStringRest_esc (c : Char) (s rest : List Char)
    (ih : parseStringRest (escString s ++ '"' :: rest) = some (s, rest)) :
    parseStringRest (escChar c ++ (escString s ++ '"' :: rest)) = some (c :: s, rest) := by
  by_cases h1 : c = '"'
  · subst h1
    rw [show escChar '"' = ['\\', '"'] from rfl]
    simp only [List.cons_append, List.nil_append]
    rw [parseStringRest.eq_def]
    simp [unescape, ih]
  · by_cases h2 : c = '\\'
    · subst h2
      rw [show escChar '\\' = ['\\', '\\'] from rfl]
      simp only [List.cons_append, List.nil_append]
      rw [parseStringRest.eq_def]
      simp [unescape, ih]
    · by_cases h3 : c = '\x08'
      · subst h3
        rw [show escChar '\x08' = ['\\', 'b'] from rfl]
        simp only [List.cons_append, List.nil_append]
        rw [parseStringRest.eq_def]
        simp [unescape, ih]
      · by_cases h4 : c = '\x0c'
        · subst h4
          rw [show escChar '\x0c' = ['\\', 'f'] from rfl]
          simp only [List.cons_append, List.nil_append]
          rw [parseStringRest.eq_def]
          simp [unescape, ih]
        · by_cases h5 : c = '\n'
          · subst h5
            rw [show escChar '\n' = ['\\', 'n'] from rfl]
            simp only [List.cons_append, List.nil_append]
            rw [parseStringRest.eq_def]
            simp [unescape, ih]
          · by_cases h6 : c = '\r'
            · subst h6
              rw [show escChar '\r' = ['\\', 'r'] from rfl]
              simp only [List.cons_append, List.nil_append]
              rw [parseStringRest.eq_def]
              simp [unescape, ih]
            · by_cases h7 : c = '\t'
              · subst h7
                rw [show escChar '\t' = ['\\', 't'] from rfl]
                simp only [List.cons_append, List.nil_append]
                rw [parseStringRest.eq_def]
                simp [unescape, ih]
              · by_cases h8 : c.toNat < 32
                · have hlt16a : c.toNat / 16 < 16 := by omega
                  have hlt16b : c.toNat % 16 < 16 := Nat.mod_lt _ (by omega)
                  have e1 := isHex_digitChar _ hlt16a
                  have e2 := isHex_digitChar _ hlt16b
                  have v1 := hexVal_digitChar _ hlt16a
                  have v2 := hexVal_digitChar _ hlt16b
                  simp only [escChar, if_neg h1, if_neg h2, if_neg h3, if_neg h4, if_neg h5,
                    if_neg h6, if_neg h7, if_pos h8, List.cons_append, List.nil_append]
                  rw [parseStringRest.eq_def]
                  simp only [e1, e2, show isHexDigitC '0' = true from rfl, Bool.and_self,
                    Bool.and_true, Bool.true_and, if_true, v1, v2,
                    show hexVal '0' = 0 from rfl, ih, Option.map_some']
                  have hv : 4096 * 0 + 256 * 0 + 16 * (c.toNat / 16) + c.toNat % 16
                      = c.toNat := by omega
                  simp only [hv, Char.ofNat_toNat]
                  rw [if_neg (show ¬ ('\\' = '"') from by decide)]
                · have h8' : ¬ c.toNat < 32 := h8
                  simp only [escChar, if_neg h1, if_neg h2, if_neg h3, if_neg h4, if_neg h5,
                    if_neg h6, if_neg h7, if_neg h8', List.cons_append, List.nil_append]
                  rw [parseStringRest.eq_def]
                  simp only []
                  rw [if_neg h1, if_neg h2, if_neg h8', ih]
                  rfl

theorem parseStringRest_escString (s rest : List Char) :
    parseStringRest (escString s ++ '"' :: rest) = some (s, rest) := by
  induction s with
  | nil =>
    rw [show escString [] = [] from rfl, List.nil_append, parseStringRest.eq_def]
    simp
  | cons c s ih =>
    have : escString (c :: s) ++ '"' :: rest = escChar c ++ (escString s ++ '"' :: rest) := by
      simp [escString]
    rw [this]
    exact parseStringRest_esc c s rest ih

/-! ### Decimal-number round trip -/

theorem digitChar_val : ∀ d, d < 10 → (Nat.digitChar d).toNat - 48 = d := by decide

theorem digitChar_isDigit : ∀ d, d < 10 → (Nat.digitChar d).isDigit = true := by decide

theorem fold_digits (ds : List Nat) (h : ∀ d ∈ ds, d < 10) :
    List.foldr (fun c a => 10 * a + (c.toNat - 48)) 0 (ds.map Nat.digitChar)
      = Nat.ofDigits 10 ds := by
  induction ds with
  | nil => simp [Nat.ofDigits]
  | cons d t ih =>
    have hd := h d (List.mem_cons_self d t)
    have iht := ih (fun x hx => h x (List.mem_cons_of_mem d hx))
    simp only [List.map_cons, List.foldr_cons, iht, digitChar_val d hd, Nat.ofDigits_cons]
    omega

theorem natChars_digits (n : Nat) : ∀ c ∈ natChars n, c.isDigit = true := by
  intro c hc
  unfold natChars at hc
  by_cases h : n = 0
  · rw [if_pos h] at hc
    simp only [List.mem_singleton] at hc
    subst hc
    decide
  · rw [if_neg h, List.mem_reverse] at hc
    obtain ⟨d, hd, hdc⟩ := List.mem_map.mp hc
    rw [← hdc]
    exact digitChar_isDigit d (Nat.digits_lt_base (by norm_num) hd)

theorem natChars_ne_nil (n : Nat) : natChars n ≠ [] := by
  unfold natChars
  by_cases h : n = 0
  · simp [h]
  · rw [if_neg h]
    simp [Nat.digits_ne_nil_iff_ne_zero, h]

theorem digitsToNat_natChars (n : Nat) : digitsToNat (natChars n) = n := by
  unfold digitsToNat natChars
  by_cases h : n = 0
  · rw [if_pos h, h]
    decide
  · rw [if_neg h]
    simp only [List.foldl_reverse]
    rw [fold_digits _ (fun d hd => Nat.digits_lt_base (by norm_num) hd)]
    exact Nat.ofDigits_digits 10 n

theorem natChars_head_digitChar (m : Nat) :
    ∃ d l, d < 10 ∧ natChars m = Nat.digitChar d :: l := by
  by_cases h : m = 0
  · refine ⟨0, [], by norm_num, ?_⟩
    rw [h]
    rfl
  · have hne : Nat.digits 10 m ≠ [] := Nat.digits_ne_nil_iff_ne_zero.mpr h
    have hrne : (Nat.digits 10 m).reverse ≠ [] := by simpa using hne
    obtain ⟨e, l2, hsplit⟩ := List.exists_cons_of_ne_nil hrne
    have he : e ∈ Nat.digits 10 m := by
      rw [← List.mem_reverse, hsplit]
      exact List.mem_cons_self _ _
    refine ⟨e, l2.map Nat.digitChar, Nat.digits_lt_base (by norm_num) he, ?_⟩
    unfold natChars
    rw [if_neg h, ← List.map_reverse, hsplit, List.map_cons]

theorem isDigit_ne_minus (c : Char) (h : c.isDigit = true) : ¬ (c = '-') := by
  intro he
  subst he
  exact absurd h (by decide)

theorem takeWhile_digits_append (l rest : List Char) (hl : ∀ c ∈ l, c.isDigit = true)
    (h : ∀ c, rest.head? = some c → c.isDigit = false) :
    (l ++ rest).takeWhile Char.isDigit = l
    ∧ (l ++ rest).dropWhile Char.isDigit = rest := by
  induction l with
  | nil =>
    simp only [List.nil_append]
    cases rest with
    | nil => exact ⟨rfl, rfl⟩
    | cons a t =>
      have ha := h a rfl
      rw [List.takeWhile_cons, List.dropWhile_cons]
      simp [ha]
  | cons a t ih =>
    have ha := hl a (List.mem_cons_self a t)
    have iht := ih (fun c hc => hl c (List.mem_cons_of_mem a hc))
    simp only [List.cons_append, List.takeWhile_cons, List.dropWhile_cons, ha]
    simp [iht.1, iht.2]

theorem parseNumber_intChars (n : Int) (rest : List Char)
    (h : ∀ c, rest.head? = some c → c.isDigit = false) :
    parseNumber (intChars n ++ rest) = some (Js.num n, rest) := by
  obtain ⟨htake, hdrop⟩ :=
    takeWhile_digits_append (natChars n.natAbs) rest (natChars_digits _) h
  by_cases hn : n < 0
  · rw [show intChars n = '-' :: natChars n.natAbs from by unfold intChars; rw [if_pos hn]]
    rw [List.cons_append]
    unfold parseNumber
    rw [if_pos (show ('-' :: (natChars n.natAbs ++ rest)).head? = some '-' from rfl)]
    dsimp only [List.tail_cons]
    rw [htake, if_neg (natChars_ne_nil _), hdrop, digitsToNat_natChars]
    have hval : -((n.natAbs : Nat) : Int) = n := by omega
    rw [hval]
  · rw [show intChars n = natChars n.natAbs from by unfold intChars; rw [if_neg hn]]
    obtain ⟨c0, l0, hsplit⟩ := List.exists_cons_of_ne_nil (natChars_ne_nil n.natAbs)
    have hc0 : c0.isDigit = true := by
      apply natChars_digits n.natAbs
      rw [hsplit]
      exact List.mem_cons_self _ _
    unfold parseNumber
    have hne : ¬ ((natChars n.natAbs ++ rest).head? = some '-') := by
      rw [hsplit, List.cons_append, List.head?_cons]
      simp only [Option.some.injEq]
      exact isDigit_ne_minus c0 hc0
    rw [if_neg hne]
    rw [htake, if_neg (natChars_ne_nil _), hdrop, digitsToNat_natChars]
    have hval : ((n.natAbs : Nat) : Int) = n := by omega
    rw [hval]

/-! ### Parser step lemmas (one unfolding of `parseVal` per head shape) -/

theorem pv_null (f : Nat) (r : List Char) :
    parseVal (f+1) ('n' :: 'u' :: 'l' :: 'l' :: r) = some (Js.nul, r) := rfl

theorem pv_true (f : Nat) (r : List Char) :
    parseVal (f+1) ('t' :: 'r' :: 'u' :: 'e' :: r) = some (Js.bool true, r) := rfl

theorem pv_false (f : Nat) (r : List Char) :
    parseVal (f+1) ('f' :: 'a' :: 'l' :: 's' :: 'e' :: r) = some (Js.bool false, r) := rfl

theorem pv_quote (f : Nat) (r : List Char) :
    parseVal (f+1) ('"' :: r) = (parseStringRest r).map (fun p => (Js.str p.1, p.2)) := rfl

theorem pv_lbrack (f : Nat) (r : List Char) :
    parseVal (f+1) ('[' :: r)
      = (if (skipWs r).head? = some ']' then some (Js.arr [], (skipWs r).tail)
         else (parseElems f (skipWs r)).map (fun p => (Js.arr p.1, p.2))) := rfl

theorem pv_lbrace (f : Nat) (r : List Char) :
    parseVal (f+1) ('\x7b' :: r)
      = (if (skipWs r).head? = some '\x7d' then some (Js.obj [], (skipWs r).tail)
         else (parseFields f (skipWs r)).map (fun p => (Js.obj p.1, p.2))) := rfl

theorem pv_minus (f : Nat) (r : List Char) :
    parseVal (f+1) ('-' :: r) = parseNumber ('-' :: r) := rfl

theorem pv_digitChar : ∀ d, d < 10 → ∀ (f : Nat) (r : List Char),
    parseVal (f+1) (Nat.digitChar d :: r) = parseNumber (Nat.digitChar d :: r) := by
  intro d hd
  interval_cases d <;> exact fun f r => rfl

/-! ### Head shape of printed values -/

theorem digitChar_head_facts : ∀ x, x < 10 →
    isWsChar (Nat.digitChar x) = false ∧ Nat.digitChar x ≠ ']' ∧ Nat.digitChar x ≠ '\x7d' := by
  decide

theorem printVal_head (v : Js) (d : Nat) :
    ∃ c t, printVal v d = c :: t ∧ isWsChar c = false ∧ c ≠ ']' ∧ c ≠ '\x7d' := by
  cases v with
  | nul => exact ⟨'n', ['u', 'l', 'l'], by simp [printVal], by decide, by decide, by decide⟩
  | bool b =>
    cases b with
    | true =>
      exact ⟨'t', ['r', 'u', 'e'], by simp [printVal], by decide, by decide, by decide⟩
    | false =>
      exact ⟨'f', ['a', 'l', 's', 'e'], by simp [printVal], by decide, by decide, by decide⟩
  | num n =>
    by_cases hn : n < 0
    · refine ⟨'-', natChars n.natAbs, ?_, by decide, by decide, by decide⟩
      simp only [printVal]
      unfold intChars
      rw [if_pos hn]
    · obtain ⟨x, l, hx, hsplit⟩ := natChars_head_digitChar n.natAbs
      obtain ⟨hws, hrb, hcb⟩ := digitChar_head_facts x hx
      refine ⟨Nat.digitChar x, l, ?_, hws, hrb, hcb⟩
      simp only [printVal]
      unfold intChars
      rw [if_neg hn, hsplit]
  | str s =>
    exact ⟨'"', escString s ++ ['"'], by simp [printVal], by decide, by decide, by decide⟩
  | arr xs =>
    cases xs with
    | nil => exact ⟨'[', [']'], by simp [printVal], by decide, by decide, by decide⟩
    | cons x t =>
      exact ⟨'[', '\n' :: (indent (d + 1) ++ (printElems x t (d + 1)
          ++ '\n' :: (indent d ++ [']']))),
        by simp [printVal], by decide, by decide, by decide⟩
  | obj fs =>
    cases fs with
    | nil => exact ⟨'\x7b', ['\x7d'], by simp [printVal], by decide, by decide, by decide⟩
    | cons kv t =>
      cases kv with
      | mk k v =>
        exact ⟨'\x7b', '\n' :: (indent (d + 1) ++ (printFields k v t (d + 1)
            ++ '\n' :: (indent d ++ ['\x7d']))),
          by simp [printVal], by decide, by decide, by decide⟩

/-! ### Miscellaneous side conditions -/

/-- The text after a printed value must not begin with a digit (numbers are
the only tokens that are not self-delimiting). -/
def noDigitHead (rest : List Char) : Prop :=
  ∀ c, rest.head? = some c → c.isDigit = false

theorem noDigitHead_nil : noDigitHead [] := by
  intro c hc
  simp at hc

theorem noDigitHead_cons (c : Char) (h : c.isDigit = false) (t : List Char) :
    noDigitHead (c :: t) := by
  intro x hx
  simp only [List.head?_cons, Option.some.injEq] at hx
  rw [← hx]
  exact h

theorem ws_cons_ws (c : Char) (hc : isWsChar c = true) (l : List Char)
    (hl : ∀ x ∈ l, isWsChar x = true) : ∀ x ∈ c :: l, isWsChar x = true := by
  intro x hx
  rcases List.mem_cons.mp hx with h | h
  · rw [h]; exact hc
  · exact hl x h

/-! ### Normal forms of the printer outputs -/

theorem printElems_eq_nil (x : Js) (d : Nat) : printElems x [] d = printVal x d := by
  simp [printElems]

theorem printElems_eq_cons (x y : Js) (ys : List Js) (d : Nat) :
    printElems x (y :: ys) d
      = printVal x d ++ (',' :: '\n' :: (indent d ++ printElems y ys d)) := by
  simp [printElems]

theorem printFields_eq_nil (k : JStr) (v : Js) (d : Nat) :
    printFields k v [] d = '"' :: (escString k ++ ('"' :: ':' :: ' ' :: printVal v d)) := by
  simp [printFields]

theorem printFields_eq_cons (k : JStr) (v : Js) (k2 : JStr) (v2 : Js)
    (fs2 : List (JStr × Js)) (d : Nat) :
    printFields k v ((k2, v2) :: fs2) d
      = '"' :: (escString k ++ ('"' :: ':' :: ' ' :: (printVal v d
          ++ (',' :: '\n' :: (indent d ++ printFields k2 v2 fs2 d))))) := by
  simp [printFields]

theorem printElems_shape (x : Js) (t : List Js) (D : Nat) :
    ∃ tl, printElems x t D = printVal x D ++ tl := by
  cases t with
  | nil => exact ⟨[], by simp [printElems]⟩
  | cons y ys =>
    exact ⟨',' :: '\n' :: (indent D ++ printElems y ys D), printElems_eq_cons x y ys D⟩

theorem printElems_head (x : Js) (t : List Js) (D : Nat) (tail2 : List Char) :
    ∃ ch tl2, printElems x t D ++ tail2 = ch :: tl2
      ∧ isWsChar ch = false ∧ ch ≠ ']' ∧ ch ≠ '\x7d' := by
  obtain ⟨tl, htl⟩ := printElems_shape x t D
  obtain ⟨c0, t0, hpv, h1, h2, h3⟩ := printVal_head x D
  refine ⟨c0, t0 ++ (tl ++ tail2), ?_, h1, h2, h3⟩
  rw [htl, hpv]
  simp

/-! ### One-step unfoldings of the list parsers -/

theorem pe_step_last (f : Nat) (cs : List Char) (v : Js) (r1 r2 : List Char)
    (hv : parseVal f cs = some (v, r1)) (hr : skipWs r1 = ']' :: r2) :
    parseElems (f+1) cs = some ([v], r2) := by
  simp only [parseElems, hv, hr]

theorem pe_step_cons (f : Nat) (cs : List Char) (v : Js) (r1 r2 : List Char)
    (hv : parseVal f cs = some (v, r1)) (hr : skipWs r1 = ',' :: r2) :
    parseElems (f+1) cs = (parseElems f r2).map (fun p => (v :: p.1, p.2)) := by
  simp only [parseElems, hv, hr]

theorem pf_step_last (f : Nat) (cs r : List Char) (k : JStr) (r1 r2 : List Char)
    (v : Js) (r3 r4 : List Char)
    (h0 : skipWs cs = '"' :: r) (h1 : parseStringRest r = some (k, r1))
    (h2 : skipWs r1 = ':' :: r2) (h3 : parseVal f r2 = some (v, r3))
    (h4 : skipWs r3 = '\x7d' :: r4) :
    parseFields (f+1) cs = some ([(k, v)], r4) := by
  simp only [parseFields, h0, h1, h2, h3, h4]

theorem pf_step_cons (f : Nat) (cs r : List Char) (k : JStr) (r1 r2 : List Char)
    (v : Js) (r3 r4 : List Char)
    (h0 : skipWs cs = '"' :: r) (h1 : parseStringRest r = some (k, r1))
    (h2 : skipWs r1 = ':' :: r2) (h3 : parseVal f r2 = some (v, r3))
    (h4 : skipWs r3 = ',' :: r4) :
    parseFields (f+1) cs = (parseFields f r4).map (fun p => ((k, v) :: p.1, p.2)) := by
  simp only [parseFields, h0, h1, h2, h3, h4]

theorem printFields_head (k : JStr) (v : Js) (fs : List (JStr × Js)) (D : Nat)
    (tail2 : List Char) :
    ∃ tl2, printFields k v fs D ++ tail2 = '"' :: tl2 := by
  cases fs with
  | nil =>
    refine ⟨escString k ++ ('"' :: ':' :: ' ' :: (printVal v D ++ tail2)), ?_⟩
    rw [printFields_eq_nil]
    simp
  | cons kv fs2 =>
    obtain ⟨k2, v2⟩ := kv
    refine ⟨escString k ++ ('"' :: ':' :: ' ' :: (printVal v D
      ++ (',' :: '\n' :: (indent D ++ (printFields k2 v2 fs2 D ++ tail2))))), ?_⟩
    rw [printFields_eq_cons]
    simp

/-- The parser/printer inverse, by induction on fuel: with fuel at least the
node count, parsing a printed value (or a printed item/member list followed
by its closing delimiter) recovers it exactly. -/
theorem parse_print : ∀ f : Nat,
    (∀ v d rest, sizeJ v ≤ f → noDigitHead rest →
        parseVal f (printVal v d ++ rest) = some (v, rest))
    ∧ (∀ x xs d ws pad rest, sizeL (x :: xs) ≤ f →
        (∀ c ∈ ws, isWsChar c = true) → (∀ c ∈ pad, isWsChar c = true) →
        parseElems f (ws ++ (printElems x xs d ++ '\n' :: (pad ++ ']' :: rest)))
          = some (x :: xs, rest))
    ∧ (∀ k v fs d ws pad rest, sizeF ((k, v) :: fs) ≤ f →
        (∀ c ∈ ws, isWsChar c = true) → (∀ c ∈ pad, isWsChar c = true) →
        parseFields f (ws ++ (printFields k v fs d ++ '\n' :: (pad ++ '\x7d' :: rest)))
          = some ((k, v) :: fs, rest)) := by
  intro f
  induction f with
  | zero =>
    refine ⟨?_, ?_, ?_⟩
    · intro v d rest hsz _
      exact absurd hsz (by have := sizeJ_pos v; omega)
    · intro x xs d ws pad rest hsz _ _
      exact absurd hsz (by have := sizeL_pos (x :: xs); omega)
    · intro k v fs d ws pad rest hsz _ _
      exact absurd hsz (by have := sizeF_pos ((k, v) :: fs); omega)
  | succ f ih =>
    obtain ⟨ih1, ih2, ih3⟩ := ih
    refine ⟨?_, ?_, ?_⟩
    · -- values
      intro v d rest hsz hnd
      cases v with
      | nul =>
        rw [show printVal Js.nul d ++ rest = 'n' :: 'u' :: 'l' :: 'l' :: rest from by
          simp [printVal]]
        exact pv_null f rest
      | bool b =>
        cases b with
        | true =>
          rw [show printVal (Js.bool true) d ++ rest = 't' :: 'r' :: 'u' :: 'e' :: rest from by
            simp [printVal]]
          exact pv_true f rest
        | false =>
          rw [show printVal (Js.bool false) d ++ rest
              = 'f' :: 'a' :: 'l' :: 's' :: 'e' :: rest from by simp [printVal]]
          exact pv_false f rest
      | num n =>
        rw [show printVal (Js.num n) d = intChars n from by simp [printVal]]
        by_cases hn : n < 0
        · have hi : intChars n = '-' :: natChars n.natAbs := by
            unfold intChars; rw [if_pos hn]
          rw [hi, List.cons_append, pv_minus, ← List.cons_append, ← hi]
          exact parseNumber_intChars n rest hnd
        · obtain ⟨x, l, hx, hsplit⟩ := natChars_head_digitChar n.natAbs
          have hi : intChars n = Nat.digitChar x :: l := by
            unfold intChars; rw [if_neg hn, hsplit]
          rw [hi, List.cons_append, pv_digitChar x hx, ← List.cons_append, ← hi]
          exact parseNumber_intChars n rest hnd
      | str s =>
        rw [show printVal (Js.str s) d ++ rest = '"' :: (escString s ++ '"' :: rest) from by
          simp [printVal]]
        rw [pv_quote, parseStringRest_escString]
        rfl
      | arr xs =>
        cases xs with
        | nil =>
          rw [show printVal (Js.arr []) d ++ rest = '[' :: ']' :: rest from by simp [printVal]]
          rw [pv_lbrack, skipWs_cons_of_neg ']' rest (by decide)]
          rw [if_pos (show (']' :: rest : List Char).head? = some ']' from rfl)]
          rfl
        | cons x t =>
          rw [show printVal (Js.arr (x :: t)) d ++ rest
              = '[' :: ('\n' :: (indent (d+1) ++ (printElems x t (d+1)
                  ++ '\n' :: (indent d ++ ']' :: rest)))) from by simp [printVal]]
          rw [pv_lbrack]
          have hskip : skipWs ('\n' :: (indent (d+1) ++ (printElems x t (d+1)
              ++ '\n' :: (indent d ++ ']' :: rest))))
              = printElems x t (d+1) ++ '\n' :: (indent d ++ ']' :: rest) := by
            rw [show '\n' :: (indent (d+1) ++ (printElems x t (d+1)
                ++ '\n' :: (indent d ++ ']' :: rest)))
                = ('\n' :: indent (d+1)) ++ (printElems x t (d+1)
                  ++ '\n' :: (indent d ++ ']' :: rest)) from by simp]
            rw [skipWs_append_ws _ _ (ws_cons_ws '\n' (by decide) _ (indent_ws (d+1)))]
            obtain ⟨ch, tl2, heq, hnws, _, _⟩ :=
              printElems_head x t (d+1) ('\n' :: (indent d ++ ']' :: rest))
            rw [heq, skipWs_cons_of_neg _ _ hnws]
          obtain ⟨ch, tl2, heq, hnws, hnrb, hncb⟩ :=
            printElems_head x t (d+1) ('\n' :: (indent d ++ ']' :: rest))
          rw [if_neg (show ¬ ((skipWs ('\n' :: (indent (d+1) ++ (printElems x t (d+1)
              ++ '\n' :: (indent d ++ ']' :: rest))))).head? = some ']') from by
            rw [hskip, heq]
            simp [hnrb])]
          rw [hskip]
          have h2 := ih2 x t (d+1) [] (indent d) rest
            (by simp only [sizeJ] at hsz; omega) (by intro c hc; cases hc) (indent_ws d)
          simp only [List.nil_append] at h2
          rw [h2]
          rfl
      | obj fs =>
        cases fs with
        | nil =>
          rw [show printVal (Js.obj []) d ++ rest = '\x7b' :: '\x7d' :: rest from by
            simp [printVal]]
          rw [pv_lbrace, skipWs_cons_of_neg '\x7d' rest (by decide)]
          rw [if_pos (show ('\x7d' :: rest : List Char).head? = some '\x7d' from rfl)]
          rfl
        | cons kv t =>
          obtain ⟨k, v⟩ := kv
          rw [show printVal (Js.obj ((k, v) :: t)) d ++ rest
              = '\x7b' :: ('\n' :: (indent (d+1) ++ (printFields k v t (d+1)
                  ++ '\n' :: (indent d ++ '\x7d' :: rest)))) from by simp [printVal]]
          rw [pv_lbrace]
          have hskip : skipWs ('\n' :: (indent (d+1) ++ (printFields k v t (d+1)
              ++ '\n' :: (indent d ++ '\x7d' :: rest))))
              = printFields k v t (d+1) ++ '\n' :: (indent d ++ '\x7d' :: rest) := by
            rw [show '\n' :: (indent (d+1) ++ (printFields k v t (d+1)
                ++ '\n' :: (indent d ++ '\x7d' :: rest)))
                = ('\n' :: indent (d+1)) ++ (printFields k v t (d+1)
                  ++ '\n' :: (indent d ++ '\x7d' :: rest)) from by simp]
            rw [skipWs_append_ws _ _ (ws_cons_ws '\n' (by decide) _ (indent_ws (d+1)))]
            obtain ⟨tl2, heq⟩ :=
              printFields_head k v t (d+1) ('\n' :: (indent d ++ '\x7d' :: rest))
            rw [heq, skipWs_cons_of_neg _ _ (by decide)]
          obtain ⟨tl2, heq⟩ :=
            printFields_head k v t (d+1) ('\n' :: (indent d ++ '\x7d' :: rest))
          rw [if_neg (show ¬ ((skipWs ('\n' :: (indent (d+1) ++ (printFields k v t (d+1)
              ++ '\n' :: (indent d ++ '\x7d' :: rest))))).head? = some '\x7d') from by
            rw [hskip, heq]
            simp)]
          rw [hskip]
          have h3 := ih3 k v t (d+1) [] (indent d) rest
            (by simp only [sizeJ] at hsz; omega) (by intro c hc; cases hc) (indent_ws d)
          simp only [List.nil_append] at h3
          rw [h3]
          rfl
    · -- array item lists
      intro x xs d ws pad rest hsz hws hpad
      cases xs with
      | nil =>
        rw [printElems_eq_nil]
        have hv : parseVal f (ws ++ (printVal x d ++ '\n' :: (pad ++ ']' :: rest)))
            = some (x, '\n' :: (pad ++ ']' :: rest)) := by
          rw [parseVal_ws f ws _ hws]
          exact ih1 x d _
            (by simp only [sizeL] at hsz; omega)
            (noDigitHead_cons '\n' (by decide) _)
        have hskip : skipWs ('\n' :: (pad ++ ']' :: rest)) = ']' :: rest := by
          rw [show '\n' :: (pad ++ ']' :: rest) = ('\n' :: pad) ++ (']' :: rest) from by simp]
          rw [skipWs_append_ws _ _ (ws_cons_ws '\n' (by decide) _ hpad)]
          exact skipWs_cons_of_neg ']' rest (by decide)
        exact pe_step_last f _ x _ rest hv hskip
      | cons y ys =>
        rw [printElems_eq_cons]
        rw [show ws ++ (printVal x d ++ (',' :: '\n' :: (indent d ++ printElems y ys d))
            ++ '\n' :: (pad ++ ']' :: rest))
            = ws ++ (printVal x d ++ (',' :: '\n' :: (indent d ++ (printElems y ys d
              ++ '\n' :: (pad ++ ']' :: rest))))) from by simp]
        have hv : parseVal f (ws ++ (printVal x d ++ (',' :: '\n' :: (indent d
            ++ (printElems y ys d ++ '\n' :: (pad ++ ']' :: rest))))))
            = some (x, ',' :: '\n' :: (indent d
              ++ (printElems y ys d ++ '\n' :: (pad ++ ']' :: rest)))) := by
          rw [parseVal_ws f ws _ hws]
          exact ih1 x d _
            (by simp only [sizeL] at hsz; have := sizeL_pos ys; have := sizeJ_pos y; omega)
            (noDigitHead_cons ',' (by decide) _)
        have hskip : skipWs (',' :: '\n' :: (indent d
            ++ (printElems y ys d ++ '\n' :: (pad ++ ']' :: rest))))
            = ',' :: ('\n' :: (indent d
              ++ (printElems y ys d ++ '\n' :: (pad ++ ']' :: rest)))) :=
          skipWs_cons_of_neg ',' _ (by decide)
        rw [pe_step_cons f _ x _ _ hv hskip]
        have h2 := ih2 y ys d ('\n' :: indent d) pad rest
          (by simp only [sizeL] at hsz ⊢; have := sizeJ_pos x; omega)
          (ws_cons_ws '\n' (by decide) _ (indent_ws d)) hpad
        rw [show ('\n' :: indent d) ++ (printElems y ys d
            ++ '\n' :: (pad ++ ']' :: rest))
            = '\n' :: (indent d ++ (printElems y ys d ++ '\n' :: (pad ++ ']' :: rest)))
          from by simp] at h2
        rw [h2]
        rfl
    · -- object member lists
      intro k v fs d ws pad rest hsz hws hpad
      cases fs with
      | nil =>
        rw [printFields_eq_nil]
        rw [show ws ++ (('"' :: (escString k ++ ('"' :: ':' :: ' ' :: printVal v d)))
            ++ '\n' :: (pad ++ '\x7d' :: rest))
            = ws ++ ('"' :: (escString k ++ ('"' :: ':' :: ' ' :: (printVal v d
              ++ '\n' :: (pad ++ '\x7d' :: rest))))) from by simp]
        have h0 : skipWs (ws ++ ('"' :: (escString k ++ ('"' :: ':' :: ' ' :: (printVal v d
            ++ '\n' :: (pad ++ '\x7d' :: rest))))))
            = '"' :: (escString k ++ ('"' :: ':' :: ' ' :: (printVal v d
              ++ '\n' :: (pad ++ '\x7d' :: rest)))) := by
          rw [skipWs_append_ws _ _ hws]
          exact skipWs_cons_of_neg '"' _ (by decide)
        have h1 : parseStringRest (escString k ++ ('"' :: ':' :: ' ' :: (printVal v d
            ++ '\n' :: (pad ++ '\x7d' :: rest))))
            = some (k, ':' :: ' ' :: (printVal v d ++ '\n' :: (pad ++ '\x7d' :: rest))) :=
          parseStringRest_escString k _
        have h2 : skipWs (':' :: ' ' :: (printVal v d ++ '\n' :: (pad ++ '\x7d' :: rest)))
            = ':' :: (' ' :: (printVal v d ++ '\n' :: (pad ++ '\x7d' :: rest))) :=
          skipWs_cons_of_neg ':' _ (by decide)
        have h3 : parseVal f (' ' :: (printVal v d ++ '\n' :: (pad ++ '\x7d' :: rest)))
            = some (v, '\n' :: (pad ++ '\x7d' :: rest)) := by
          rw [show (' ' :: (printVal v d ++ '\n' :: (pad ++ '\x7d' :: rest)))
              = [' '] ++ (printVal v d ++ '\n' :: (pad ++ '\x7d' :: rest)) from rfl]
          rw [parseVal_ws f [' '] _ (by intro c hc; simp at hc; rw [hc]; rfl)]
          exact ih1 v d _
            (by simp only [sizeF] at hsz; omega)
            (noDigitHead_cons '\n' (by decide) _)
        have h4 : skipWs ('\n' :: (pad ++ '\x7d' :: rest)) = '\x7d' :: rest := by
          rw [show '\n' :: (pad ++ '\x7d' :: rest)
              = ('\n' :: pad) ++ ('\x7d' :: rest) from by simp]
          rw [skipWs_append_ws _ _ (ws_cons_ws '\n' (by decide) _ hpad)]
          exact skipWs_cons_of_neg '\x7d' rest (by decide)
        exact pf_step_last f _ _ k _ _ v _ rest h0 h1 h2 h3 h4
      | cons kv2 fs2 =>
        obtain ⟨k2, v2⟩ := kv2
        rw [printFields_eq_cons]
        rw [show ws ++ (('"' :: (escString k ++ ('"' :: ':' :: ' ' :: (printVal v d
            ++ (',' :: '\n' :: (indent d ++ printFields k2 v2 fs2 d))))))
            ++ '\n' :: (pad ++ '\x7d' :: rest))
            = ws ++ ('"' :: (escString k ++ ('"' :: ':' :: ' ' :: (printVal v d
              ++ (',' :: '\n' :: (indent d ++ (printFields k2 v2 fs2 d
                ++ '\n' :: (pad ++ '\x7d' :: rest)))))))) from by simp]
        have h0 : skipWs (ws ++ ('"' :: (escString k ++ ('"' :: ':' :: ' ' :: (printVal v d
            ++ (',' :: '\n' :: (indent d ++ (printFields k2 v2 fs2 d
              ++ '\n' :: (pad ++ '\x7d' :: rest)))))))))
            = '"' :: (escString k ++ ('"' :: ':' :: ' ' :: (printVal v d
              ++ (',' :: '\n' :: (indent d ++ (printFields k2 v2 fs2 d
                ++ '\n' :: (pad ++ '\x7d' :: rest))))))) := by
          rw [skipWs_append_ws _ _ hws]
          exact skipWs_cons_of_neg '"' _ (by decide)
        have h1 : parseStringRest (escString k ++ ('"' :: ':' :: ' ' :: (printVal v d
            ++ (',' :: '\n' :: (indent d ++ (printFields k2 v2 fs2 d
              ++ '\n' :: (pad ++ '\x7d' :: rest)))))))
            = some (k, ':' :: ' ' :: (printVal v d
              ++ (',' :: '\n' :: (indent d ++ (printFields k2 v2 fs2 d
                ++ '\n' :: (pad ++ '\x7d' :: rest)))))) :=
          parseStringRest_escString k _
        have h2 : skipWs (':' :: ' ' :: (printVal v d
            ++ (',' :: '\n' :: (indent d ++ (printFields k2 v2 fs2 d
              ++ '\n' :: (pad ++ '\x7d' :: rest))))))
            = ':' :: (' ' :: (printVal v d
              ++ (',' :: '\n' :: (indent d ++ (printFields k2 v2 fs2 d
                ++ '\n' :: (pad ++ '\x7d' :: rest)))))) :=
          skipWs_cons_of_neg ':' _ (by decide)
        have h3 : parseVal f (' ' :: (printVal v d
            ++ (',' :: '\n' :: (indent d ++ (printFields k2 v2 fs2 d
              ++ '\n' :: (pad ++ '\x7d' :: rest))))))
            = some (v, ',' :: '\n' :: (indent d ++ (printFields k2 v2 fs2 d
              ++ '\n' :: (pad ++ '\x7d' :: rest)))) := by
          rw [show (' ' :: (printVal v d
              ++ (',' :: '\n' :: (indent d ++ (printFields k2 v2 fs2 d
                ++ '\n' :: (pad ++ '\x7d' :: rest))))))
              = [' '] ++ (printVal v d
                ++ (',' :: '\n' :: (indent d ++ (printFields k2 v2 fs2 d
                  ++ '\n' :: (pad ++ '\x7d' :: rest))))) from rfl]
          rw [parseVal_ws f [' '] _ (by intro c hc; simp at hc; rw [hc]; rfl)]
          exact ih1 v d _
            (by simp only [sizeF] at hsz; have := sizeF_pos fs2; have := sizeJ_pos v2; omega)
            (noDigitHead_cons ',' (by decide) _)
        have h4 : skipWs (',' :: '\n' :: (indent d ++ (printFields k2 v2 fs2 d
            ++ '\n' :: (pad ++ '\x7d' :: rest))))
            = ',' :: ('\n' :: (indent d ++ (printFields k2 v2 fs2 d
              ++ '\n' :: (pad ++ '\x7d' :: rest)))) :=
          skipWs_cons_of_neg ',' _ (by decide)
        rw [pf_step_cons f _ _ k _ _ v _ _ h0 h1 h2 h3 h4]
        have hrec := ih3 k2 v2 fs2 d ('\n' :: indent d) pad rest
          (by simp only [sizeF] at hsz ⊢; have := sizeJ_pos v; omega)
          (ws_cons_ws '\n' (by decide) _ (indent_ws d)) hpad
        rw [show ('\n' :: indent d) ++ (printFields k2 v2 fs2 d
            ++ '\n' :: (pad ++ '\x7d' :: rest))
            = '\n' :: (indent d ++ (printFields k2 v2 fs2 d
              ++ '\n' :: (pad ++ '\x7d' :: rest))) from by simp] at hrec
        rw [hrec]
        rfl

/-! ### Fuel sufficiency: the node count is at most the printed length -/

theorem intChars_ne_nil (n : Int) : intChars n ≠ [] := by
  unfold intChars
  split
  · simp
  · exact natChars_ne_nil _

mutual
theorem sizeJ_le_print (v : Js) (d : Nat) : sizeJ v ≤ (printVal v d).length := by
  cases v with
  | nul => simp [printVal, sizeJ]
  | bool b => cases b <;> simp [printVal, sizeJ]
  | num n =>
    have hne := intChars_ne_nil n
    have : 0 < (intChars n).length := List.length_pos.mpr hne
    simp only [printVal, sizeJ]
    omega
  | str s => simp [printVal, sizeJ]
  | arr xs =>
    cases xs with
    | nil => simp [printVal, sizeJ, sizeL]
    | cons x t =>
      have hl := sizeL_le_print x t (d+1)
      simp only [printVal, sizeJ, List.length_cons, List.length_append, indent,
        List.length_replicate]
      omega
  | obj fs =>
    cases fs with
    | nil => simp [printVal, sizeJ, sizeF]
    | cons kv t =>
      obtain ⟨k, v⟩ := kv
      have hl := sizeF_le_print k v t (d+1)
      simp only [printVal, sizeJ, List.length_cons, List.length_append, indent,
        List.length_replicate]
      omega
termination_by sizeOf v
decreasing_by all_goals (simp <;> omega)
theorem sizeL_le_print (x : Js) (xs : List Js) (d : Nat) :
    sizeL (x :: xs) ≤ (printElems x xs d).length + 2 := by
  cases xs with
  | nil =>
    have h1 := sizeJ_le_print x d
    simp only [printElems, sizeL]
    omega
  | cons y ys =>
    have h1 := sizeJ_le_print x d
    have h2 := sizeL_le_print y ys d
    simp only [printElems, sizeL, List.length_append, List.length_cons, indent,
      List.length_replicate] at h2 ⊢
    omega
termination_by 1 + sizeOf x + sizeOf xs
decreasing_by all_goals (simp <;> omega)
theorem sizeF_le_print (k : JStr) (v : Js) (fs : List (JStr × Js)) (d : Nat) :
    sizeF ((k, v) :: fs) ≤ (printFields k v fs d).length + 2 := by
  cases fs with
  | nil =>
    have h1 := sizeJ_le_print v d
    simp only [printFields, sizeF, List.length_append, List.length_cons]
    omega
  | cons kv2 fs2 =>
    obtain ⟨k2, v2⟩ := kv2
    have h1 := sizeJ_le_print v d
    have h2 := sizeF_le_print k2 v2 fs2 d
    simp only [printFields, sizeF, List.length_append, List.length_cons, indent,
      List.length_replicate] at h2 ⊢
    omega
termination_by 1 + sizeOf v + sizeOf fs
decreasing_by all_goals (simp <;> omega)
end

/-- The round trip: parsing the text of `JSON.stringify(v, null, 2)` yields
`v` back. -/
theorem jsonParse_stringify2 (v : Js) : jsonParse (stringify2 v) = some v := by
  unfold jsonParse stringify2
  have hfuel : sizeJ v ≤ (printVal v 0).length + 1 :=
    le_trans (sizeJ_le_print v 0) (by omega)
  have h1 := (parse_print ((printVal v 0).length + 1)).1 v 0 [] hfuel noDigitHead_nil
  rw [List.append_nil] at h1
  rw [h1]
  rfl

/-! ## Claim C7 -/

/-- Claim C7: the response-data normalization of line 92.  On a received
response, the value returned to the caller and the value persisted in the
new record both carry `normalizeData v`; an object-typed body (`typeof v
=== 'object'`) is serialized as 2-space-indented text whose JSON parse
recovers the original structured value; every non-object body is passed
through unchanged. -/
theorem c7_data_normalization (d : ReqDesc) (m : JStr) (hm : d.method = some m)
    (st : List HistoryRecord) (newId : JStr) (now : Int) (elapsed : Nat) (tA tB : Int)
    (s : Nat) (stx : JStr) (hs : List (JStr × JStr)) (v : Js) :
    ((postRequestHandler d (AxiosOutcome.ok s stx hs v) st newId now elapsed tA tB).reply.response.map
        RespData.data = some (normalizeData v))
    ∧ ((postRequestHandler d (AxiosOutcome.ok s stx hs v) st newId now elapsed tA tB).store
        = st ++ [mkRecord newId now d
            { status := s, statusText := stx, headers := hs,
              data := normalizeData v, time := (elapsed : Int) }])
    ∧ (isObjectType v = true →
        normalizeData v = Js.str (stringify2 v) ∧ jsonParse (stringify2 v) = some v)
    ∧ (isObjectType v = false → normalizeData v = v) := by
  obtain ⟨cfg, hcfg⟩ := buildConfig_ok_of_method d m hm
  refine ⟨?_, ?_, ?_, ?_⟩
  · unfold postRequestHandler
    rw [hcfg]
    rfl
  · unfold postRequestHandler
    rw [hcfg]
  · intro hobj
    constructor
    · unfold normalizeData
      rw [if_pos hobj]
    · exact jsonParse_stringify2 v
  · intro hobj
    unfold normalizeData
    rw [if_neg (by rw [hobj]; simp)]

/-- Witness for `c7_data_normalization`: a one-field object round-trips, a
plain string passes through. -/
theorem c7_witness :
    c1d.method = some ("get".toList)
    ∧ isObjectType (Js.obj [("a".toList, Js.num 1)]) = true
    ∧ normalizeData (Js.obj [("a".toList, Js.num 1)])
        = Js.str (stringify2 (Js.obj [("a".toList, Js.num 1)]))
    ∧ jsonParse (stringify2 (Js.obj [("a".toList, Js.num 1)]))
        = some (Js.obj [("a".toList, Js.num 1)])
    ∧ isObjectType (Js.str ("hi".toList)) = false
    ∧ normalizeData (Js.str ("hi".toList)) = Js.str ("hi".toList) :=
  ⟨rfl, rfl,
   ((c7_data_normalization c1d _ rfl [] ("a".toList) 0 5 9 9 200 ("OK".toList) []
      (Js.obj [("a".toList, Js.num 1)])).2.2.1 rfl).1,
   ((c7_data_normalization c1d _ rfl [] ("a".toList) 0 5 9 9 200 ("OK".toList) []
      (Js.obj [("a".toList, Js.num 1)])).2.2.1 rfl).2,
   rfl,
   (c7_data_normalization c1d _ rfl [] ("a".toList) 0 5 9 9 200 ("OK".toList) []
      (Js.str ("hi".toList))).2.2.2 rfl⟩

end ApiStudio
